import Mathlib

set_option autoImplicit false

/-!
Shallow embedding of the EVENT-FINDER-WEBSITE backend (FastAPI + SQLite).

The embedding models:
* `app/schemas/event.py` — pydantic models and their validators,
* `app/repositories/events.py` — SQL construction and its semantics over an
  explicit database state (events table plus the optional FTS5 index),
* `app/core/database.py` — the FTS5 triggers that keep the index in sync,
* `app/api/routes/events.py` — the search route that assembles an
  `EventQuery` from the incoming query parameters.

Python strings are modelled as Lean `String`/`List Char`; SQLite TEXT
comparison is byte-wise and is modelled as lexicographic comparison of the
character lists (identical on the ASCII data the app stores).  Machine-level
concerns (UTF-8 encoding, connection handling) are outside the claims.
-/

namespace EventFinder

open List

/-! ## Character-level primitives shared by Python and SQLite semantics -/

/-- ASCII lower-casing: both Python's `str.lower` (on the ASCII inputs the
app handles) and SQLite's `LOWER` fold only the letters A..Z. -/
def lowerChar (c : Char) : Char :=
  if 'A' ≤ c ∧ c ≤ 'Z' then Char.ofNat (c.toNat + 32) else c

/-- Python regex `\w` on ASCII text: letters, digits and underscore. -/
def isWordChar (c : Char) : Bool :=
  c.isAlpha || c.isDigit || c = '_'

/-- Python `str.strip()` default whitespace characters. -/
def pyWs (c : Char) : Bool :=
  c = ' ' || c = '\t' || c = '\n' || c = '\r' || c = '\x0b' || c = '\x0c'

/-- Python `str.strip()` on a character list: drop whitespace from both ends. -/
def stripChars (l : List Char) : List Char :=
  ((l.dropWhile pyWs).reverse.dropWhile pyWs).reverse

/-- Python `str.strip()`. -/
def pyStrip (s : String) : String := ⟨stripChars s.toList⟩

/-- Byte-wise (here: character-wise) strict order, as SQLite compares TEXT. -/
def lexLtC : List Char → List Char → Bool
  | [], [] => false
  | [], _ :: _ => true
  | _ :: _, [] => false
  | a :: s, b :: t => if a = b then lexLtC s t else decide (a < b)

/-- Byte-wise `<=`, as SQLite evaluates `date >= ?` / `date <= ?` on TEXT. -/
def lexLeC : List Char → List Char → Bool
  | [], _ => true
  | _ :: _, [] => false
  | a :: s, b :: t => if a = b then lexLeC s t else decide (a < b)

/-! ## SQLite `LIKE` semantics

SQLite's default `LIKE` is case-insensitive for ASCII; `%` matches any run of
characters (possibly empty) and `_` matches exactly one character. -/

/-- All suffixes of a list, longest first (the spans `%` can skip to). -/
def suffixesOf : List Char → List (List Char)
  | [] => [[]]
  | l@(_ :: t) => l :: suffixesOf t

def likeMatch : List Char → List Char → Bool
  | [], s => s.isEmpty
  | c :: p', s =>
    if c = '%' then (suffixesOf s).any (fun t => likeMatch p' t)
    else if c = '_' then
      match s with
      | [] => false
      | _ :: s' => likeMatch p' s'
    else
      match s with
      | [] => false
      | d :: s' => lowerChar c == lowerChar d && likeMatch p' s'

/-! ## `_to_fts_query` and FTS5 `MATCH` semantics

`_to_fts_query` does `re.findall(r"\w+", text.lower())` and then joins the
tokens as `tok*` with `" AND "` between them (events.py lines 25-34). -/

/-- Accumulating splitter: maximal runs of word characters, in order.
Mirrors `re.findall(r"\w+", ...)`. -/
def wordRunsAux : List Char → List Char → List (List Char)
  | [], acc => if acc.isEmpty then [] else [acc.reverse]
  | c :: rest, acc =>
    if isWordChar c then wordRunsAux rest (c :: acc)
    else if acc.isEmpty then wordRunsAux rest []
    else acc.reverse :: wordRunsAux rest []

/-- Python `re.findall(r"\w+", text.lower())` on a character list. -/
def wordTokensC (l : List Char) : List (List Char) :=
  wordRunsAux (l.map lowerChar) []

/-- The five-character separator `" AND "`. -/
def sepAND : List Char := [' ', 'A', 'N', 'D', ' ']

/-- The join `" AND ".join(f"{t}*" for t in tokens)`. -/
def joinAndStar : List (List Char) → List Char
  | [] => []
  | [t] => t ++ ['*']
  | t :: ts => t ++ ['*'] ++ sepAND ++ joinAndStar ts

/-- The function `_to_fts_query` (events.py lines 25-34): tokenize, lowercase, add a `*`
prefix marker to every token and join with `" AND "`; empty token list gives
the empty query string. -/
def toFtsQueryChars (l : List Char) : List Char :=
  joinAndStar (wordTokensC l)

/-- String-level wrapper for `_to_fts_query`. -/
def toFtsQuery (s : String) : String := ⟨toFtsQueryChars s.toList⟩

/-- FTS5 engine side: split the received query string on `" AND "`. -/
def splitAnd (l : List Char) (acc : List Char) : List (List Char) :=
  match l with
  | ' ' :: 'A' :: 'N' :: 'D' :: ' ' :: rest => acc.reverse :: splitAnd rest []
  | c :: rest => splitAnd rest (c :: acc)
  | [] => [acc.reverse]

/-- FTS5 engine side: recover the prefix tokens of a conjunctive prefix query
(each conjunct is `tok*`; drop the trailing `*`). -/
def parseFtsTokens (l : List Char) : List (List Char) :=
  (splitAnd l []).map (fun p => p.dropLast)

/-- Tokens the FTS5 index holds for one indexed document (title plus
description), lower-cased, as maximal word-character runs. -/
def docTokens (title : String) (desc : Option String) : List (List Char) :=
  wordTokensC title.toList ++
    (match desc with
     | some d => wordTokensC d.toList
     | none => [])

/-- Evaluate an FTS5 conjunctive prefix query (the only shape `_to_fts_query`
produces) against one indexed document: every conjunct `tok*` must be a
prefix of some document token. -/
def ftsEvalChars (queryChars : List Char) (title : String) (desc : Option String) : Bool :=
  (parseFtsTokens queryChars).all
    (fun t => (docTokens title desc).any (fun w => t.isPrefixOf w))

/-! ## Domain types (`app/schemas/event.py`) -/

/-- The `CategoryEnum`: the closed category set. -/
inductive CategoryEnum where
  | music | tech | sports | arts | business | community
deriving DecidableEq

/-- The string value backing each enum member. -/
def CategoryEnum.value : CategoryEnum → String
  | .music => "music"
  | .tech => "tech"
  | .sports => "sports"
  | .arts => "arts"
  | .business => "business"
  | .community => "community"

/-- The list behind `GET /meta/categories`: every member's value. -/
def categoryValues : List String :=
  ["music", "tech", "sports", "arts", "business", "community"]

/-- A Python `datetime.date`: a valid calendar date with year in 1..9999,
month in 1..12, day in 1..31 (the constructor enforces these bounds). -/
structure PyDate where
  year : Nat
  month : Nat
  day : Nat
deriving DecidableEq

/-- One decimal digit character. -/
def digitChar (n : Nat) : Char := Char.ofNat (48 + n % 10)

/-- Python `date.isoformat()`: zero-padded `YYYY-MM-DD` text. -/
def isoformat (d : PyDate) : String :=
  ⟨[digitChar (d.year / 1000), digitChar (d.year / 100),
    digitChar (d.year / 10), digitChar d.year, '-',
    digitChar (d.month / 10), digitChar d.month, '-',
    digitChar (d.day / 10), digitChar d.day]⟩

/-- The `SortEnum`. -/
inductive SortEnum where
  | date_asc | date_desc | created_desc
deriving DecidableEq

/-- A validated `EventCreate` payload (fields already passed the pydantic
validators: texts stripped, category normalized). -/
structure EventCreate where
  title : String
  description : Option String
  location : String
  category : CategoryEnum
  date : PyDate
deriving DecidableEq

/-- A validated `EventUpdate` payload.  Every field is wrapped in `Option`
for presence (`model_dump(exclude_unset=True)` drops unset fields) and
doubly wrapped because every declared field is `Optional[...] = None`: a
present value may be an explicit null, which the validators pass
through. -/
structure EventUpdate where
  title : Option (Option String)
  description : Option (Option String)
  location : Option (Option String)
  category : Option (Option CategoryEnum)
  date : Option (Option PyDate)
deriving DecidableEq

/-- The `EventQuery` schema (schemas/event.py lines 76-86).  Exactly the declared
fields: the schema declares NO `starts_with` field. -/
structure EventQuery where
  q : Option String := none
  location : Option String := none
  date : Option PyDate := none
  category : Option CategoryEnum := none
  start_date : Option PyDate := none
  end_date : Option PyDate := none
  limit : Nat := 20
  offset : Nat := 0
  sort : SortEnum := SortEnum.date_asc
deriving DecidableEq

/-- Models `getattr(q, 'starts_with', None)` (events.py lines 88, 140): the
`EventQuery` class declares no `starts_with` field and pydantic's default
model config silently drops unknown constructor keywords, so the attribute
never exists on an `EventQuery` instance and `getattr` returns `None`. -/
def startsWithAttr (_ : EventQuery) : Option String := none

/-- Python truthiness of an `Optional[str]`: `None` and `""` are falsy. -/
def pyTruthyStr : Option String → Bool
  | none => false
  | some s => !s.toList.isEmpty

/-- Python truthiness of an optional non-string object (dates, enum members
are always truthy when present). -/
def pyTruthyOpt {α : Type} : Option α → Bool
  | none => false
  | some _ => true

/-! ## Stored state

`events` is the primary table, `fts` the optional FTS5 external-content
index (`none` when SQLite lacks FTS5), `nextId` the autoincrement counter. -/

/-- A row of the `events` table. -/
structure Row where
  id : Nat
  title : String
  description : Option String
  location : String
  category : String
  date : String
  created_at : String
deriving DecidableEq

/-- A document of the `events_fts` FTS5 index. -/
structure FtsEntry where
  rowid : Nat
  title : String
  description : Option String
deriving DecidableEq

/-- The database state. -/
structure DbState where
  events : List Row
  fts : Option (List FtsEntry)
  nextId : Nat
deriving DecidableEq

/-- Predicate `_fts_available` (events.py lines 16-22): does `events_fts` exist? -/
def ftsAvailable (db : DbState) : Bool := db.fts.isSome

/-- The FTS documents (empty when the index does not exist). -/
def ftsDocs (db : DbState) : List FtsEntry := db.fts.getD []

/-! ## Query compiler (`list_events` / `count_events`)

Both functions build the same `WHERE` clauses from the same `if` chain
(events.py lines 79-105 and 131-157 — the code is duplicated verbatim).
Each clause is modelled twice, in lockstep with the source:
* as a SQL text fragment plus bound parameters (`listSqlText`, ...), and
* as an executable condition (`Cond` / `evalCond`) giving the semantics
  SQLite assigns to that fragment with those parameters bound.
-/

/-- A bound SQL parameter. -/
inductive SqlParam where
  | s (v : String)
  | n (v : Nat)
deriving DecidableEq

/-- One `WHERE` condition with its bound parameter already substituted,
mirroring the clause strings of events.py. -/
inductive Cond where
  /-- Clause `fts MATCH ?` with the built FTS query string bound. -/
  | ftsMatch (queryChars : List Char)
  /-- Clause `(title LIKE ? OR description LIKE ?)` with `%q%` bound twice. -/
  | likeTitleOrDesc (pat : List Char)
  /-- Clause `LOWER(title) LIKE ?` with `f"{starts_with.lower()}%"` bound. -/
  | titleLowerLike (pat : List Char)
  /-- Clause `LOWER(location) LIKE ?` with `f"%{location.lower()}%"` bound. -/
  | locationLowerLike (pat : List Char)
  /-- Clause `LOWER(category) = ?` with the enum value bound. -/
  | categoryLowerEq (v : String)
  /-- Clause `date = ?` with an ISO date bound. -/
  | dateEq (v : String)
  /-- Clause `date >= ?` with an ISO date bound. -/
  | dateGe (v : String)
  /-- Clause `date <= ?` with an ISO date bound. -/
  | dateLe (v : String)
deriving DecidableEq

/-- The `%q%` pattern of the fallback substring search (built verbatim,
no escaping of `%` or `_`). -/
def fallbackPat (qs : String) : List Char := '%' :: qs.toList ++ ['%']

/-- The conditions `list_events` accumulates (events.py lines 79-105).
`fts` says whether `_fts_available` returned true. -/
def listConds (q : EventQuery) (fts : Bool) : List Cond :=
  (if pyTruthyStr q.q then
     (if fts then [Cond.ftsMatch (toFtsQueryChars (q.q.getD "").toList)]
      else [Cond.likeTitleOrDesc (fallbackPat (q.q.getD ""))])
   else []) ++
  (if pyTruthyStr (startsWithAttr q) then
     [Cond.titleLowerLike (((startsWithAttr q).getD "").toList.map lowerChar ++ ['%'])]
   else []) ++
  (if pyTruthyStr q.location then
     [Cond.locationLowerLike ('%' :: (q.location.getD "").toList.map lowerChar ++ ['%'])]
   else []) ++
  (if pyTruthyOpt q.category then [Cond.categoryLowerEq ((q.category.getD .music).value)]
   else []) ++
  (if pyTruthyOpt q.date then [Cond.dateEq (isoformat (q.date.getD ⟨1, 1, 1⟩))] else []) ++
  (if pyTruthyOpt q.start_date then [Cond.dateGe (isoformat (q.start_date.getD ⟨1, 1, 1⟩))]
   else []) ++
  (if pyTruthyOpt q.end_date then [Cond.dateLe (isoformat (q.end_date.getD ⟨1, 1, 1⟩))]
   else [])

/-- The conditions `count_events` accumulates (events.py lines 131-157; the
source duplicates the clause-building code of `list_events` verbatim). -/
def countConds (q : EventQuery) (fts : Bool) : List Cond :=
  (if pyTruthyStr q.q then
     (if fts then [Cond.ftsMatch (toFtsQueryChars (q.q.getD "").toList)]
      else [Cond.likeTitleOrDesc (fallbackPat (q.q.getD ""))])
   else []) ++
  (if pyTruthyStr (startsWithAttr q) then
     [Cond.titleLowerLike (((startsWithAttr q).getD "").toList.map lowerChar ++ ['%'])]
   else []) ++
  (if pyTruthyStr q.location then
     [Cond.locationLowerLike ('%' :: (q.location.getD "").toList.map lowerChar ++ ['%'])]
   else []) ++
  (if pyTruthyOpt q.category then [Cond.categoryLowerEq ((q.category.getD .music).value)]
   else []) ++
  (if pyTruthyOpt q.date then [Cond.dateEq (isoformat (q.date.getD ⟨1, 1, 1⟩))] else []) ++
  (if pyTruthyOpt q.start_date then [Cond.dateGe (isoformat (q.start_date.getD ⟨1, 1, 1⟩))]
   else []) ++
  (if pyTruthyOpt q.end_date then [Cond.dateLe (isoformat (q.end_date.getD ⟨1, 1, 1⟩))]
   else [])

/-- SQLite evaluation of one condition on a candidate output row.  The row is
paired with the FTS document the `JOIN events_fts fts ON fts.rowid =
events.id` clause matched it with (`none` when the query has no join);
`fts MATCH ?` reads the joined document, all other conditions read the
`events` columns.  `NULL LIKE ?` is not true, so a missing description
fails the fallback's description disjunct. -/
def evalCond : Cond → Row → Option FtsEntry → Bool
  | .ftsMatch qc, _, en =>
      match en with
      | some e => ftsEvalChars qc e.title e.description
      | none => false
  | .likeTitleOrDesc pat, r, _ =>
      likeMatch pat r.title.toList ||
        (match r.description with
         | some d => likeMatch pat d.toList
         | none => false)
  | .titleLowerLike pat, r, _ => likeMatch pat (r.title.toList.map lowerChar)
  | .locationLowerLike pat, r, _ => likeMatch pat (r.location.toList.map lowerChar)
  | .categoryLowerEq v, r, _ => r.category.toList.map lowerChar == v.toList
  | .dateEq v, r, _ => r.date == v
  | .dateGe v, r, _ => lexLeC v.toList r.date.toList
  | .dateLe v, r, _ => lexLeC r.date.toList v.toList

/-- Does the built query join `events_fts`?  (Only when `q` is truthy and
the index exists.) -/
def usesFtsJoin (q : EventQuery) (fts : Bool) : Bool := pyTruthyStr q.q && fts

/-- The rows the `FROM events [JOIN events_fts ...]` clause produces before
the `WHERE` filter: with the join, one candidate per (event, document) pair
with matching rowid; without it, one candidate per event. -/
def baseRows (db : DbState) (q : EventQuery) : List (Row × Option FtsEntry) :=
  if usesFtsJoin q (ftsAvailable db) then
    db.events.flatMap (fun e =>
      ((ftsDocs db).filter (fun en => en.rowid == e.id)).map (fun en => (e, some en)))
  else
    db.events.map (fun e => (e, none))

/-- The filtered row set shared (modulo pagination/order) by both queries. -/
def matchedPairs (db : DbState) (q : EventQuery) : List (Row × Option FtsEntry) :=
  (baseRows db q).filter
    (fun p => (listConds q (ftsAvailable db)).all (fun c => evalCond c p.1 p.2))

/-- One `ORDER BY key, id` step: strictly smaller key, or equal keys and
`id` deciding (both columns compared the way SQLite compares them). -/
def keyLe (x y : List Char) (i j : Nat) : Prop :=
  lexLtC x y = true ∨ (x = y ∧ i ≤ j)

instance keyLeDecidable (x y : List Char) (i j : Nat) : Decidable (keyLe x y i j) :=
  inferInstanceAs (Decidable (_ ∨ _))

/-- The `ORDER BY` relation (events.py lines 109-115): primary key per sort
mode with `id` as tie-break in the same direction. -/
def rowLe (sort : SortEnum) (a b : Row) : Prop :=
  match sort with
  | .date_asc => keyLe a.date.toList b.date.toList a.id b.id
  | .date_desc => keyLe b.date.toList a.date.toList b.id a.id
  | .created_desc => keyLe b.created_at.toList a.created_at.toList b.id a.id

instance rowLeDecidable (sort : SortEnum) : DecidableRel (rowLe sort) :=
  match sort with
  | .date_asc => fun a b =>
      inferInstanceAs (Decidable (keyLe a.date.toList b.date.toList a.id b.id))
  | .date_desc => fun a b =>
      inferInstanceAs (Decidable (keyLe b.date.toList a.date.toList b.id a.id))
  | .created_desc => fun a b =>
      inferInstanceAs (Decidable (keyLe b.created_at.toList a.created_at.toList b.id a.id))

/-- Function `list_events` (events.py lines 73-122): filter via the built query,
order deterministically, then `LIMIT ? OFFSET ?`. -/
def listEvents (db : DbState) (q : EventQuery) : List Row :=
  (((insertionSort (rowLe q.sort) ((matchedPairs db q).map Prod.fst)).drop q.offset).take q.limit)

/-- Function `count_events` (events.py lines 125-165): `SELECT COUNT(*)` over the
identically filtered row set, no order/limit/offset. -/
def countEvents (db : DbState) (q : EventQuery) : Nat :=
  ((baseRows db q).filter
    (fun p => (countConds q (ftsAvailable db)).all (fun c => evalCond c p.1 p.2))).length

/-! ## SQL text construction

The exact query text the two functions assemble; user-supplied values go
only into the parameter lists. -/

/-- The `joins` list of `list_events` (events.py lines 75, 81). -/
def listJoinTexts (q : EventQuery) (fts : Bool) : List String :=
  if pyTruthyStr q.q then (if fts then ["JOIN events_fts fts ON fts.rowid = events.id"] else [])
  else []

/-- The `clauses` list of `list_events` (events.py lines 79-105). -/
def listClauseTexts (q : EventQuery) (fts : Bool) : List String :=
  (if pyTruthyStr q.q then
     (if fts then ["fts MATCH ?"] else ["(title LIKE ? OR description LIKE ?)"])
   else []) ++
  (if pyTruthyStr (startsWithAttr q) then ["LOWER(title) LIKE ?"] else []) ++
  (if pyTruthyStr q.location then ["LOWER(location) LIKE ?"] else []) ++
  (if pyTruthyOpt q.category then ["LOWER(category) = ?"] else []) ++
  (if pyTruthyOpt q.date then ["date = ?"] else []) ++
  (if pyTruthyOpt q.start_date then ["date >= ?"] else []) ++
  (if pyTruthyOpt q.end_date then ["date <= ?"] else [])

/-- The `params` list of `list_events`, including the trailing
`limit`/`offset` (events.py lines 79-105, 117). -/
def listParams (q : EventQuery) (fts : Bool) : List SqlParam :=
  (if pyTruthyStr q.q then
     (if fts then [SqlParam.s (toFtsQuery (q.q.getD ""))]
      else [SqlParam.s ⟨fallbackPat (q.q.getD "")⟩, SqlParam.s ⟨fallbackPat (q.q.getD "")⟩])
   else []) ++
  (if pyTruthyStr (startsWithAttr q) then
     [SqlParam.s ⟨((startsWithAttr q).getD "").toList.map lowerChar ++ ['%']⟩]
   else []) ++
  (if pyTruthyStr q.location then
     [SqlParam.s ⟨'%' :: (q.location.getD "").toList.map lowerChar ++ ['%']⟩]
   else []) ++
  (if pyTruthyOpt q.category then [SqlParam.s ((q.category.getD .music).value)] else []) ++
  (if pyTruthyOpt q.date then [SqlParam.s (isoformat (q.date.getD ⟨1, 1, 1⟩))] else []) ++
  (if pyTruthyOpt q.start_date then [SqlParam.s (isoformat (q.start_date.getD ⟨1, 1, 1⟩))]
   else []) ++
  (if pyTruthyOpt q.end_date then [SqlParam.s (isoformat (q.end_date.getD ⟨1, 1, 1⟩))]
   else []) ++
  [SqlParam.n q.limit, SqlParam.n q.offset]

/-- Computes `f"WHERE {' AND '.join(clauses)}" if clauses else ""`. -/
def whereText (clauses : List String) : String :=
  if clauses.isEmpty then "" else "WHERE " ++ String.intercalate " AND " clauses

/-- The `ORDER BY` text (events.py lines 110-115; the `else` branch covers
the default `date_asc`). -/
def orderText : SortEnum → String
  | .date_desc => "ORDER BY date DESC, id DESC"
  | .created_desc => "ORDER BY created_at DESC, id DESC"
  | .date_asc => "ORDER BY date ASC, id ASC"

/-- The full fetch query text (events.py line 116). -/
def listSqlText (q : EventQuery) (fts : Bool) : String :=
  "SELECT events.* FROM events " ++ String.intercalate " " (listJoinTexts q fts) ++ " " ++
    whereText (listClauseTexts q fts) ++ " " ++ orderText q.sort ++ " LIMIT ? OFFSET ?"

/-- The `joins` list of `count_events` (duplicated code, lines 127, 133). -/
def countJoinTexts (q : EventQuery) (fts : Bool) : List String :=
  if pyTruthyStr q.q then (if fts then ["JOIN events_fts fts ON fts.rowid = events.id"] else [])
  else []

/-- The `clauses` list of `count_events` (duplicated code, lines 131-157). -/
def countClauseTexts (q : EventQuery) (fts : Bool) : List String :=
  (if pyTruthyStr q.q then
     (if fts then ["fts MATCH ?"] else ["(title LIKE ? OR description LIKE ?)"])
   else []) ++
  (if pyTruthyStr (startsWithAttr q) then ["LOWER(title) LIKE ?"] else []) ++
  (if pyTruthyStr q.location then ["LOWER(location) LIKE ?"] else []) ++
  (if pyTruthyOpt q.category then ["LOWER(category) = ?"] else []) ++
  (if pyTruthyOpt q.date then ["date = ?"] else []) ++
  (if pyTruthyOpt q.start_date then ["date >= ?"] else []) ++
  (if pyTruthyOpt q.end_date then ["date <= ?"] else [])

/-- The full count query text (events.py line 161). -/
def countSqlText (q : EventQuery) (fts : Bool) : String :=
  "SELECT COUNT(*) AS cnt FROM events " ++ String.intercalate " " (countJoinTexts q fts) ++
    " " ++ whereText (countClauseTexts q fts)

/-! ## Pydantic validation (`EventBase` / `EventCreate` / `EventUpdate`)

`_strip_text` strips the three text fields; `_normalize_category` strips,
lower-cases and looks the category up in the closed enum; `Field` puts max
lengths on the texts.  No minimum length is declared anywhere. -/

/-- Unvalidated `EventCreate` input (a `date` object is always a valid
calendar date, which `validDate` records). -/
structure RawCreate where
  title : Option String
  description : Option String
  location : Option String
  category : Option String
  date : Option PyDate
deriving DecidableEq

/-- The bounds Python's `datetime.date` constructor enforces. -/
def validDate (d : PyDate) : Bool :=
  1 ≤ d.year && d.year ≤ 9999 && 1 ≤ d.month && d.month ≤ 12 && 1 ≤ d.day && d.day ≤ 31

/-- Lookup `CategoryEnum(value)` against the closed set. -/
def parseCategory : String → Option CategoryEnum
  | "music" => some .music
  | "tech" => some .tech
  | "sports" => some .sports
  | "arts" => some .arts
  | "business" => some .business
  | "community" => some .community
  | _ => none

/-- Python `str.lower()` (ASCII). -/
def pyLower (s : String) : String := ⟨s.toList.map lowerChar⟩

/-- Validator `_normalize_category`: `CategoryEnum(v.strip().lower())`. -/
def normalizeCategory (s : String) : Option CategoryEnum :=
  parseCategory (pyLower (pyStrip s))

/-- A required text field: `_strip_text` runs before the `max_length`
check; a missing value is rejected.  No minimum length is checked. -/
def vStr (maxLen : Nat) (o : Option String) : Option String :=
  match o with
  | none => none
  | some s => if (pyStrip s).length ≤ maxLen then some (pyStrip s) else none

/-- An optional text field: absent stays absent, present values are
stripped and length-checked. -/
def vStrOpt (maxLen : Nat) (o : Option String) : Option (Option String) :=
  match o with
  | none => some none
  | some s => if (pyStrip s).length ≤ maxLen then some (some (pyStrip s)) else none

/-- A required `date` field (the `date` type itself guarantees a valid
calendar date). -/
def vDate (o : Option PyDate) : Option PyDate :=
  match o with
  | none => none
  | some d => if validDate d then some d else none

/-- Pydantic validation of an `EventCreate` payload: every field validator
runs on its own field (`_strip_text` before the length constraints,
`_normalize_category` against the closed set); `title`, `location`,
`category`, `date` are required; no non-emptiness constraint exists. -/
def validateCreate (r : RawCreate) : Option EventCreate :=
  match vStr 200 r.title, vStrOpt 2000 r.description, vStr 200 r.location,
      r.category.bind normalizeCategory, vDate r.date with
  | some t, some de, some lo, some ca, some da => some ⟨t, de, lo, ca, da⟩
  | _, _, _, _, _ => none

/-- Unvalidated `EventUpdate` input; every field may be absent, and a
present field may be an explicit null (pydantic accepts e.g.
`{"date": null}`). -/
structure RawUpdate where
  title : Option (Option String)
  description : Option (Option String)
  location : Option (Option String)
  category : Option (Option String)
  date : Option (Option PyDate)
deriving DecidableEq

/-- An unset-or-present text field on update: a present value may be an
explicit null (the `_strip_text` validator returns `None` unchanged),
otherwise it is stripped and length-checked. -/
def vOptStrU (maxLen : Nat) (o : Option (Option String)) :
    Option (Option (Option String)) :=
  match o with
  | none => some none
  | some none => some (some none)
  | some (some d) =>
      if (pyStrip d).length ≤ maxLen then some (some (some (pyStrip d))) else none

/-- An unset-or-present category on update: a present value may be an
explicit null (`_normalize_category` returns `None` unchanged). -/
def vCatU (o : Option (Option String)) : Option (Option (Option CategoryEnum)) :=
  match o with
  | none => some none
  | some none => some (some none)
  | some (some c) => (normalizeCategory c).map (fun k => some (some k))

/-- An unset-or-present date on update: a present value may be an explicit
null. -/
def vDateU (o : Option (Option PyDate)) : Option (Option (Option PyDate)) :=
  match o with
  | none => some none
  | some none => some (some none)
  | some (some d) => if validDate d then some (some (some d)) else none

/-- Pydantic validation of an `EventUpdate` payload: present non-null text
fields are stripped and length-checked, a present non-null category is
normalized against the closed set, explicit nulls pass through, unset
fields stay unset. -/
def validateUpdate (r : RawUpdate) : Option EventUpdate :=
  match vOptStrU 200 r.title, vOptStrU 2000 r.description, vOptStrU 200 r.location,
      vCatU r.category, vDateU r.date with
  | some t, some de, some lo, some ca, some da => some ⟨t, de, lo, ca, da⟩
  | _, _, _, _, _ => none

/-! ## Write operations and their FTS triggers

`_ensure_fts5` (database.py lines 77-128) installs `AFTER INSERT`,
`AFTER DELETE` and `AFTER UPDATE` triggers on `events` whenever the FTS5
index exists, so every write statement updates the index in the same unit
of work.  When FTS5 is unavailable neither the index nor the triggers
exist. -/

/-- The row `INSERT INTO events ...` creates (events.py lines 54-60):
`id` from the autoincrement counter, `created_at` assigned by the column
default at insert time (passed in as `createdAt`). -/
def mkRow (c : EventCreate) (id : Nat) (createdAt : String) : Row :=
  { id := id, title := c.title, description := c.description,
    location := c.location, category := c.category.value,
    date := isoformat c.date, created_at := createdAt }

/-- Function `insert_event`: append the new row; the `events_fts_ai` trigger inserts
the matching FTS document in the same unit of work when the index exists. -/
def applyInsert (db : DbState) (c : EventCreate) (createdAt : String) : DbState :=
  let r := mkRow c db.nextId createdAt
  { events := db.events ++ [r],
    fts := db.fts.map (fun ds => ds ++ [⟨r.id, r.title, r.description⟩]),
    nextId := db.nextId + 1 }

/-- The record `insert_event` returns (the just-inserted row). -/
def insertedRow (db : DbState) (c : EventCreate) (createdAt : String) : Row :=
  mkRow c db.nextId createdAt

/-- Function `get_event`: `SELECT * FROM events WHERE id = ?`, `None` when absent. -/
def getEvent (db : DbState) (id : Nat) : Option Row :=
  db.events.find? (fun e => e.id == id)

/-- Apply the `SET` assignments of the sparse update to one row
(events.py lines 182-198): only the present fields change.  The
non-nullable fields are only ever applied with non-null values — the
explicit-null payloads take the error branches of `applyUpdate` before
any row is rewritten. -/
def applyUpd (r : Row) (u : EventUpdate) : Row :=
  { r with
    title := (u.title.getD none).getD r.title,
    description := u.description.getD r.description,
    location := (u.location.getD none).getD r.location,
    category := ((u.category.getD none).map CategoryEnum.value).getD r.category,
    date := ((u.date.getD none).map isoformat).getD r.date }

/-- Test `if not data:` — `model_dump(exclude_unset=True)` produced no fields. -/
def hasNoFields (u : EventUpdate) : Bool :=
  u.title.isNone && u.description.isNone && u.location.isNone &&
    u.category.isNone && u.date.isNone

/-- The exceptions `update_event` can raise. -/
inductive PyError where
  /-- Python `AttributeError`: `data["date"].isoformat()` on an explicit
  null, raised while the parameters are built, before any SQL. -/
  | attributeError
  /-- SQLite `IntegrityError`: an explicit null written into a NOT NULL
  column (`title`, `location`, `category`) of a matched row. -/
  | integrityError
deriving DecidableEq

/-- Does the payload write an explicit null into a NOT NULL column?  Such
an UPDATE fails with `IntegrityError` whenever it matches a row. -/
def setsNullNotNull (u : EventUpdate) : Prop :=
  u.title = some none ∨ u.location = some none ∨ u.category = some none

instance (u : EventUpdate) : Decidable (setsNullNotNull u) :=
  inferInstanceAs (Decidable (_ ∨ _ ∨ _))

/-- Effect of `update_event` on the state: with no fields set, no statement
runs.  An explicitly-null `date` raises `AttributeError` at
`data["date"].isoformat()` while the parameters are still being built —
before any SQL, for present and absent ids alike — leaving the store
unchanged.  An explicit null bound into a NOT NULL column makes the UPDATE
fail and roll back when it matches a row.  Otherwise `UPDATE events SET
... WHERE id = ?` rewrites the matching row and the `events_fts_au`
trigger replaces (delete old document, insert new) its FTS document in the
same unit of work.  An id that matches no row changes nothing. -/
def applyUpdate (db : DbState) (id : Nat) (u : EventUpdate) : DbState :=
  if hasNoFields u then db
  else if u.date = some none then db
  else if db.events.any (fun e => e.id == id) then
    if setsNullNotNull u then db
    else
      { db with
        events := db.events.map (fun e => if e.id == id then applyUpd e u else e),
        fts := db.fts.map (fun ds =>
          (ds.filter (fun en => en.rowid != id)) ++
            ((db.events.filter (fun e => e.id == id)).map
              (fun e => (⟨(applyUpd e u).id, (applyUpd e u).title,
                          (applyUpd e u).description⟩ : FtsEntry)))) }
  else db

/-- Case split on `applyUpdate`: either nothing changes (no fields,
explicitly-null date, failing NOT NULL write, or no matching row), or the
update and its FTS trigger apply to the matched row. -/
theorem applyUpdate_cases (db : DbState) (id : Nat) (u : EventUpdate) :
    applyUpdate db id u = db ∨
      ((db.events.any fun x => x.id == id) = true ∧
        applyUpdate db id u =
          { db with
            events := db.events.map (fun e => if e.id == id then applyUpd e u else e),
            fts := db.fts.map (fun ds =>
              (ds.filter (fun en => en.rowid != id)) ++
                ((db.events.filter (fun e => e.id == id)).map
                  (fun e => (⟨(applyUpd e u).id, (applyUpd e u).title,
                              (applyUpd e u).description⟩ : FtsEntry)))) }) := by
  by_cases hnf : hasNoFields u
  · exact Or.inl (by simp [applyUpdate, hnf])
  · by_cases hdn : u.date = some none
    · exact Or.inl (by simp [applyUpdate, hnf, hdn])
    · by_cases hex : (db.events.any fun x => x.id == id) = true
      · by_cases hsn : setsNullNotNull u
        · exact Or.inl (by simp [applyUpdate, hnf, hdn, hex, hsn])
        · exact Or.inr ⟨hex, by simp [applyUpdate, hnf, hdn, hex, hsn]⟩
      · exact Or.inl (by simp [applyUpdate, hnf, hdn, hex])

/-- What `update_event` returns or raises: the current record when no
fields are set; `AttributeError` on an explicitly-null date (before any
SQL, whatever the id); `IntegrityError` when an explicit null hits a NOT
NULL column of an existing row; `None` when `cur.rowcount == 0`; otherwise
the re-fetched row. -/
def updateResult (db : DbState) (id : Nat) (u : EventUpdate) :
    Except PyError (Option Row) :=
  if hasNoFields u then .ok (getEvent db id)
  else if u.date = some none then .error .attributeError
  else if db.events.any (fun e => e.id == id) then
    if setsNullNotNull u then .error .integrityError
    else .ok (getEvent (applyUpdate db id u) id)
  else .ok none

/-- Effect of `delete_event`: `DELETE FROM events WHERE id = ?`; the
`events_fts_ad` trigger removes the FTS document in the same unit of work. -/
def applyDelete (db : DbState) (id : Nat) : DbState :=
  { db with
    events := db.events.filter (fun e => e.id != id),
    fts := if db.events.any (fun e => e.id == id) then
             db.fts.map (fun ds => ds.filter (fun en => en.rowid != id))
           else db.fts }

/-- The boolean `delete_event` returns: `cur.rowcount > 0`. -/
def deleteResult (db : DbState) (id : Nat) : Bool :=
  db.events.any (fun e => e.id == id)

/-- The empty database `_create_schema` produces: no rows, the FTS index
present exactly when SQLite has FTS5, autoincrement counter at 1. -/
def initState (fts : Bool) : DbState :=
  ⟨[], if fts then some [] else none, 1⟩

/-- States reachable through the repository's write operations on inputs
that passed pydantic validation.  The FTS capability is fixed for the life
of the storage instance. -/
inductive Reachable : DbState → Prop
  | init (fts : Bool) : Reachable (initState fts)
  | insert {db : DbState} (raw : RawCreate) (c : EventCreate) (createdAt : String) :
      Reachable db → validateCreate raw = some c → Reachable (applyInsert db c createdAt)
  | update {db : DbState} (raw : RawUpdate) (u : EventUpdate) (id : Nat) :
      Reachable db → validateUpdate raw = some u → Reachable (applyUpdate db id u)
  | delete {db : DbState} (id : Nat) : Reachable db → Reachable (applyDelete db id)

/-! ## The search route (`app/api/routes/events.py` lines 56-90) -/

/-- Constructor call `EventQuery(q=..., starts_with=..., location=..., ...)` as the route
builds it: `EventQuery` declares no `starts_with` field and pydantic's
default model config ignores unknown constructor keywords, so the
`starts_with` argument is dropped on the floor. -/
def mkEventQuery (q _starts_with location : Option String) (date : Option PyDate)
    (category : Option CategoryEnum) (start_date end_date : Option PyDate)
    (limit offset : Nat) (sort : SortEnum) : EventQuery :=
  { q := q, location := location, date := date, category := category,
    start_date := start_date, end_date := end_date,
    limit := limit, offset := offset, sort := sort }

/-- Route `search_events`: builds the `EventQuery`, returns the `X-Total-Count`
value paired with the page of records. -/
def searchEvents (db : DbState) (q starts_with location : Option String)
    (date : Option PyDate) (category : Option CategoryEnum)
    (start_date end_date : Option PyDate) (limit offset : Nat) (sort : SortEnum) :
    Nat × List Row :=
  let parsed := mkEventQuery q starts_with location date category start_date end_date
    limit offset sort
  (countEvents db parsed, listEvents db parsed)

/-! ## Order lemmas for the byte-wise TEXT comparison -/

theorem string_toList_inj {a b : String} (h : a.toList = b.toList) : a = b := by
  cases a; cases b
  simp only [String.toList] at h
  subst h; rfl

theorem lexLtC_trichotomy : ∀ (a b : List Char),
    (a = b ∧ lexLtC a b = false ∧ lexLtC b a = false) ∨
    (a ≠ b ∧ lexLtC a b = true ∧ lexLtC b a = false) ∨
    (a ≠ b ∧ lexLtC a b = false ∧ lexLtC b a = true)
  | [], [] => Or.inl ⟨rfl, rfl, rfl⟩
  | [], _ :: _ => Or.inr (Or.inl ⟨by simp, rfl, rfl⟩)
  | _ :: _, [] => Or.inr (Or.inr ⟨by simp, rfl, rfl⟩)
  | x :: s, y :: t => by
    rcases lt_trichotomy x y with hxy | hxy | hxy
    · refine Or.inr (Or.inl ⟨by simp [ne_of_lt hxy], ?_, ?_⟩)
      · simp [lexLtC, ne_of_lt hxy, hxy]
      · simp [lexLtC, (ne_of_lt hxy).symm, lt_asymm hxy]
    · subst hxy
      rcases lexLtC_trichotomy s t with ⟨h1, h2, h3⟩ | ⟨h1, h2, h3⟩ | ⟨h1, h2, h3⟩
      · exact Or.inl ⟨by rw [h1], by simp [lexLtC, h2], by simp [lexLtC, h3]⟩
      · exact Or.inr (Or.inl ⟨by simp [h1], by simp [lexLtC, h2], by simp [lexLtC, h3]⟩)
      · exact Or.inr (Or.inr ⟨by simp [h1], by simp [lexLtC, h2], by simp [lexLtC, h3]⟩)
    · refine Or.inr (Or.inr ⟨by simp [(ne_of_lt hxy).symm], ?_, ?_⟩)
      · simp [lexLtC, (ne_of_lt hxy).symm, lt_asymm hxy]
      · simp [lexLtC, ne_of_lt hxy, hxy]

theorem lexLtC_trans : ∀ (a b c : List Char),
    lexLtC a b = true → lexLtC b c = true → lexLtC a c = true
  | [], b, [] => by
    intro _ h2; exfalso
    cases b <;> simp [lexLtC] at h2
  | [], _, _ :: _ => by intro _ _; rfl
  | _ :: _, [], _ => by intro h _; simp [lexLtC] at h
  | _ :: _, _ :: _, [] => by intro _ h; simp [lexLtC] at h
  | x :: s, y :: t, z :: u => by
    intro h1 h2
    by_cases hxy : x = y <;> by_cases hyz : y = z
    · subst hxy; subst hyz
      simp only [lexLtC, if_pos rfl] at h1 h2 ⊢
      exact lexLtC_trans s t u h1 h2
    · subst hxy
      simp only [lexLtC, if_pos rfl, if_neg hyz] at h2
      simp only [lexLtC, if_neg hyz]
      exact h2
    · subst hyz
      simp only [lexLtC, if_neg hxy] at h1
      simp only [lexLtC, if_neg hxy]
      exact h1
    · simp only [lexLtC, if_neg hxy] at h1
      simp only [lexLtC, if_neg hyz] at h2
      have hlt : x < z := lt_trans (of_decide_eq_true h1) (of_decide_eq_true h2)
      simp only [lexLtC, if_neg (ne_of_lt hlt), decide_eq_true_eq]
      exact hlt

theorem lexLtC_irrefl (a : List Char) : lexLtC a a = false := by
  rcases lexLtC_trichotomy a a with ⟨_, h, _⟩ | ⟨h, _, _⟩ | ⟨h, _, _⟩
  · exact h
  · exact absurd rfl h
  · exact absurd rfl h

theorem lexLtC_asymm {a b : List Char} (h : lexLtC a b = true) : lexLtC b a = false := by
  rcases lexLtC_trichotomy a b with ⟨_, h1, _⟩ | ⟨_, _, h2⟩ | ⟨_, h1, _⟩
  · simp [h1] at h
  · exact h2
  · simp [h1] at h

theorem lexLtC_connex {a b : List Char} (h1 : lexLtC a b = false)
    (h2 : lexLtC b a = false) : a = b := by
  rcases lexLtC_trichotomy a b with ⟨h, _, _⟩ | ⟨_, hx, _⟩ | ⟨_, _, hx⟩
  · exact h
  · simp [hx] at h1
  · simp [hx] at h2

/-! ## `LIKE` matching lemmas -/

theorem mem_suffixesOf : ∀ {t s : List Char}, t ∈ suffixesOf s ↔ t <:+ s := by
  intro t s
  induction s generalizing t with
  | nil => simp [suffixesOf, List.suffix_nil]
  | cons c s ih =>
      rw [show suffixesOf (c :: s) = (c :: s) :: suffixesOf s from rfl]
      rw [List.mem_cons, List.suffix_cons_iff]
      constructor
      · rintro (h | h)
        · exact Or.inl h
        · exact Or.inr (ih.mp h)
      · rintro (h | h)
        · exact Or.inl h
        · exact Or.inr (ih.mpr h)

theorem like_pct_iff (p s : List Char) :
    likeMatch ('%' :: p) s = true ↔ ∃ t, t <:+ s ∧ likeMatch p t = true := by
  simp [likeMatch, List.any_eq_true, mem_suffixesOf]

theorem like_pct_nil (s : List Char) : likeMatch ['%'] s = true :=
  (like_pct_iff [] s).mpr ⟨[], List.nil_suffix, rfl⟩

/-- A pattern that is a metacharacter-free literal followed by `%` matches
exactly the strings it is a case-insensitive prefix of. -/
theorem like_literal_pct : ∀ (L : List Char), (∀ c ∈ L, c ≠ '%' ∧ c ≠ '_') →
    ∀ (s : List Char),
      (likeMatch (L ++ ['%']) s = true ↔ L.map lowerChar <+: s.map lowerChar)
  | [], _, s => by
    simp [like_pct_nil s, List.nil_prefix]
  | c :: L, hL, s => by
    have hc := hL c (List.mem_cons_self _ _)
    have hL' : ∀ x ∈ L, x ≠ '%' ∧ x ≠ '_' := fun x hx => hL x (List.mem_cons_of_mem _ hx)
    cases s with
    | nil =>
        simp only [List.cons_append, likeMatch, if_neg hc.1, if_neg hc.2]
        simp
    | cons d s' =>
        simp only [List.cons_append, likeMatch, if_neg hc.1, if_neg hc.2,
          Bool.and_eq_true, beq_iff_eq, List.map_cons, List.cons_prefix_cons]
        exact and_congr_right fun _ => like_literal_pct L hL' s'

/-- Pattern `%L%` with a metacharacter-free `L` matches exactly the strings that
contain `L` as a case-insensitive substring. -/
theorem like_infix_pat (L : List Char) (hL : ∀ c ∈ L, c ≠ '%' ∧ c ≠ '_')
    (s : List Char) :
    (likeMatch ('%' :: (L ++ ['%'])) s = true ↔
      L.map lowerChar <:+: s.map lowerChar) := by
  rw [like_pct_iff]
  constructor
  · intro ⟨t, hts, hm⟩
    exact List.infix_iff_prefix_suffix.mpr
      ⟨t.map lowerChar, (like_literal_pct L hL t).mp hm, hts.map lowerChar⟩
  · intro h
    obtain ⟨u, hu, hsuf⟩ := List.infix_iff_prefix_suffix.mp h
    obtain ⟨pre, hpre⟩ := hsuf
    obtain ⟨s₁, s₂, hs, hmap1, hmap2⟩ := List.map_eq_append_iff.mp hpre.symm
    refine ⟨s₂, ⟨s₁, hs.symm⟩, (like_literal_pct L hL s₂).mpr ?_⟩
    rw [hmap2]
    exact hu

theorem likeMatch_all_pct_two (s : List Char) : likeMatch ['%', '%'] s = true :=
  (like_pct_iff ['%'] s).mpr ⟨s, List.suffix_refl s, like_pct_nil s⟩

theorem likeMatch_all_pct_three (s : List Char) : likeMatch ['%', '%', '%'] s = true :=
  (like_pct_iff ['%', '%'] s).mpr ⟨s, List.suffix_refl s, likeMatch_all_pct_two s⟩

/-- C10: the fallback search does not escape `LIKE` metacharacters: the
pattern is `%q%` verbatim, so `q = "%"` matches every record (any title,
any description), `_` in `q` matches any single character, and the fallback
is not a literal substring match on such inputs. -/
theorem fallback_like_metacharacters_not_escaped :
    (∀ (r : Row) (en : Option FtsEntry),
        evalCond (Cond.likeTitleOrDesc (fallbackPat "%")) r en = true) ∧
    (∀ c : Char, likeMatch (fallbackPat "a_c") ['a', c, 'c'] = true) ∧
    (likeMatch (fallbackPat "%") "x".toList = true ∧
      ¬ "%".toList.map lowerChar <:+: "x".toList.map lowerChar) ∧
    (likeMatch (fallbackPat "a_c") "axc".toList = true ∧
      ¬ "a_c".toList.map lowerChar <:+: "axc".toList.map lowerChar) := by
  have hp : fallbackPat "%" = ['%', '%', '%'] := by decide
  refine ⟨?_, ?_, ⟨by decide, by decide⟩, ⟨by decide, by decide⟩⟩
  · intro r en
    simp [evalCond, hp, likeMatch_all_pct_three]
  · intro c
    have hq : fallbackPat "a_c" = ['%', 'a', '_', 'c', '%'] := by decide
    rw [hq]
    refine (like_pct_iff _ _).mpr ⟨'a' :: c :: 'c' :: [], List.suffix_refl _, ?_⟩
    simp [likeMatch, suffixesOf, lowerChar]

/-- The row and fallback-only database used for the C5 counterexample. -/
def rowConcert : Row := ⟨1, "Concert", none, "Lagos", "music", "2025-06-01", "t1"⟩

/-- A database without FTS5 holding just `rowConcert`. -/
def dbConcert : DbState := ⟨[rowConcert], none, 2⟩

/-- C5 counterexample: with no full-text index, the query `q = "%"` returns
the record "Concert" (and counts it) although "%" does not occur as a
substring of its title and it has no description — the fallback is not the
substring match the claim states for every `q`. -/
theorem fallback_substring_counterexample :
    listEvents dbConcert { q := some "%" } = [rowConcert] ∧
    countEvents dbConcert { q := some "%" } = 1 ∧
    ¬ "%".toList.map lowerChar <:+: rowConcert.title.toList.map lowerChar ∧
    ¬ ∃ d, rowConcert.description = some d ∧
        "%".toList.map lowerChar <:+: d.toList.map lowerChar := by
  refine ⟨by decide, by decide, by decide, ?_⟩
  rintro ⟨d, hd, -⟩
  exact Option.noConfusion hd

/-- C5 (amended): with no full-text index and a free-text `q` containing no
`LIKE` metacharacter (`%` or `_`), a record is in the fallback result set
exactly when `q` occurs case-insensitively as a substring of its title or
of its description. -/
theorem fallback_substring_iff (db : DbState) (qs : String) (r : Row)
    (hf : db.fts = none)
    (hm : ∀ c ∈ qs.toList, c ≠ '%' ∧ c ≠ '_') :
    (r ∈ (matchedPairs db { q := some qs }).map Prod.fst ↔
      r ∈ db.events ∧
        (qs.toList.map lowerChar <:+: r.title.toList.map lowerChar ∨
          ∃ d, r.description = some d ∧
            qs.toList.map lowerChar <:+: d.toList.map lowerChar)) := by
  have hfts : ftsAvailable db = false := by simp [ftsAvailable, hf]
  by_cases hq : qs.toList.isEmpty
  · have hnil : qs.toList = [] := by simpa using hq
    have hd : qs.data = [] := hnil
    have ht : pyTruthyStr (some qs) = false := by
      simp [pyTruthyStr]
      exact hd
    have hconds : listConds { q := some qs } false = [] := by
      simp [listConds, ht, startsWithAttr, pyTruthyStr, pyTruthyOpt, hd]
    have hjoin : usesFtsJoin { q := some qs } false = false := by
      simp [usesFtsJoin]
    simp [matchedPairs, baseRows, hfts, hjoin, hconds, List.mem_filter,
      List.mem_map, hd, List.nil_infix]
  · have hne : qs.data ≠ [] := by simpa using hq
    have ht : pyTruthyStr (some qs) = true := by
      simp [pyTruthyStr, List.isEmpty_iff]
      exact hne
    have hconds : listConds { q := some qs } false =
        [Cond.likeTitleOrDesc (fallbackPat qs)] := by
      simp [listConds, ht, startsWithAttr, pyTruthyStr, pyTruthyOpt, hne]
    have hjoin : usesFtsJoin { q := some qs } false = false := by
      simp [usesFtsJoin]
    have hbase : baseRows db { q := some qs } =
        db.events.map (fun e => (e, (none : Option FtsEntry))) := by
      simp [baseRows, hfts, hjoin]
    have hpat : fallbackPat qs = '%' :: (qs.toList ++ ['%']) := rfl
    constructor
    · intro hmem
      obtain ⟨x, hx, hxr⟩ := List.mem_map.mp hmem
      obtain ⟨hxbase, hp⟩ := List.mem_filter.mp hx
      rw [hbase] at hxbase
      obtain ⟨e, he, hge⟩ := List.mem_map.mp hxbase
      rw [← hge] at hxr hp
      simp only at hxr
      subst hxr
      refine ⟨he, ?_⟩
      rw [hfts, hconds] at hp
      simp only [List.all_cons, List.all_nil, Bool.and_true, evalCond] at hp
      rw [Bool.or_eq_true] at hp
      rcases hp with h1 | h2
      · rw [hpat] at h1
        exact Or.inl ((like_infix_pat qs.toList hm _).mp h1)
      · cases hdesc : e.description with
        | none => rw [hdesc] at h2; exact absurd h2 (by simp)
        | some d =>
            rw [hdesc] at h2
            rw [hpat] at h2
            exact Or.inr ⟨d, rfl, (like_infix_pat qs.toList hm _).mp h2⟩
    · rintro ⟨hr, hc⟩
      refine List.mem_map.mpr ⟨(r, none), List.mem_filter.mpr ⟨?_, ?_⟩, rfl⟩
      · rw [hbase]
        exact List.mem_map.mpr ⟨r, hr, rfl⟩
      · rw [hfts, hconds]
        simp only [List.all_cons, List.all_nil, Bool.and_true, evalCond]
        rw [Bool.or_eq_true]
        rcases hc with h | ⟨d, hd, h⟩
        · left
          rw [hpat]
          exact (like_infix_pat qs.toList hm _).mpr h
        · right
          rw [hd, hpat]
          exact (like_infix_pat qs.toList hm _).mpr h

/-- Witness for the amended C5 theorem at a concrete input: `q = "tech"`
matches `rowConcert`'s title "Concert" not at all, yet matches a row whose
description contains "Tech". -/
theorem fallback_substring_iff_witness :
    dbConcert.fts = none ∧ (∀ c ∈ "tech".toList, c ≠ '%' ∧ c ≠ '_') ∧
      (rowConcert ∈ (matchedPairs dbConcert { q := some "tech" }).map Prod.fst ↔
        rowConcert ∈ dbConcert.events ∧
          ("tech".toList.map lowerChar <:+: rowConcert.title.toList.map lowerChar ∨
            ∃ d, rowConcert.description = some d ∧
              "tech".toList.map lowerChar <:+: d.toList.map lowerChar)) :=
  ⟨rfl, by decide, fallback_substring_iff dbConcert "tech" rowConcert rfl (by decide)⟩

/-- The single "Beta" row of the C3 failing input. -/
def rowBeta : Row := ⟨1, "Beta", none, "Lagos", "tech", "2025-06-01", "t1"⟩

/-- A database holding just the "Beta" event. -/
def dbBeta : DbState := applyInsert (initState false) ⟨"Beta", none, "Lagos", .tech, ⟨2025, 6, 1⟩⟩ "t1"

/-- C8 counterexample: pydantic accepts the PATCH body that sets `date` to
an explicit null; on that payload `update_event` raises `AttributeError`
at `data["date"].isoformat()` while still building its parameters — for
the absent id 999 exactly as for the present id 1 — instead of returning
the typed absent outcome `None`. -/
theorem notfound_null_date_counterexample :
    validateUpdate (⟨none, none, none, none, some none⟩ : RawUpdate)
        = some (⟨none, none, none, none, some none⟩ : EventUpdate) ∧
      getEvent dbBeta 999 = none ∧
      updateResult dbBeta 999 (⟨none, none, none, none, some none⟩ : EventUpdate)
        = Except.error PyError.attributeError ∧
      updateResult dbBeta 1 (⟨none, none, none, none, some none⟩ : EventUpdate)
        = Except.error PyError.attributeError :=
  ⟨by decide, by decide, rfl, rfl⟩

/-- C8 (amended): for every id not present in the store, delete_event
returns false and update_event and delete_event both leave the store
unchanged; update_event returns the typed absent outcome (`None`) and
raises no exception provided the payload does not set `date` to an
explicit null — a payload with an explicitly-null date raises
`AttributeError` before any SQL, for present and absent ids alike. -/
theorem notfound_symmetry (db : DbState) (id : Nat) (u : EventUpdate)
    (h : getEvent db id = none) :
    applyUpdate db id u = db ∧ deleteResult db id = false ∧
      applyDelete db id = db ∧
      (u.date ≠ some none → updateResult db id u = Except.ok none) := by
  have hall : ∀ e ∈ db.events, ¬ (e.id == id) = true := by
    simpa [getEvent, List.find?_eq_none] using h
  have hany : (db.events.any fun e => e.id == id) = false := by
    simp only [List.any_eq_false]
    exact hall
  refine ⟨?_, ?_, ?_, ?_⟩
  · by_cases hnf : hasNoFields u
    · simp [applyUpdate, hnf]
    · by_cases hdn : u.date = some none
      · simp [applyUpdate, hnf, hdn]
      · simp [applyUpdate, hnf, hdn, hany]
  · simp [deleteResult, hany]
  · have hfilter : db.events.filter (fun e => e.id != id) = db.events := by
      rw [List.filter_eq_self]
      intro e he
      simpa using hall e he
    simp [applyDelete, hany, hfilter]
  · intro hd
    by_cases hnf : hasNoFields u
    · simp [updateResult, hnf, h]
    · simp [updateResult, hnf, hd, hany]

/-- Witness for the amended C8 theorem at a concrete input: id 1 in the
empty store, with a payload that sets only a non-null title. -/
theorem notfound_symmetry_witness :
    getEvent (initState false) 1 = none ∧
      (applyUpdate (initState false) 1 ⟨some (some "X"), none, none, none, none⟩
          = initState false ∧
        deleteResult (initState false) 1 = false ∧
        applyDelete (initState false) 1 = initState false ∧
        ((⟨some (some "X"), none, none, none, none⟩ : EventUpdate).date ≠ some none →
          updateResult (initState false) 1 ⟨some (some "X"), none, none, none, none⟩
            = Except.ok none)) :=
  ⟨by decide,
    notfound_symmetry (initState false) 1 ⟨some (some "X"), none, none, none, none⟩
      (by decide)⟩


/-- C3 failing input: the search route is called with `starts_with = "a"`
on a store whose only event is titled "Beta".  The claim (and the route's
own parameter documentation) says the result must contain only titles
beginning with "a"; instead the full result comes back (`starts_with` is
dropped when the route builds the `EventQuery`, because the schema declares
no such field), so "Beta" is returned and counted. -/
theorem starts_with_filter_dropped :
    searchEvents dbBeta none (some "a") none none none none none 20 0 .date_asc
        = (1, [rowBeta]) ∧
      (rowBeta.title.toList.map lowerChar).head? ≠ some 'a' := by decide

/-- C9: for any two requests whose filter-presence patterns agree (and the
same sort mode and FTS availability), `list_events` and `count_events`
each build character-for-character identical SQL text; the user-supplied
values appear only in the bound-parameter lists. -/
theorem sql_text_fixed_by_shape (q q' : EventQuery) (fts : Bool)
    (h1 : pyTruthyStr q.q = pyTruthyStr q'.q)
    (h2 : pyTruthyStr q.location = pyTruthyStr q'.location)
    (h3 : pyTruthyOpt q.category = pyTruthyOpt q'.category)
    (h4 : pyTruthyOpt q.date = pyTruthyOpt q'.date)
    (h5 : pyTruthyOpt q.start_date = pyTruthyOpt q'.start_date)
    (h6 : pyTruthyOpt q.end_date = pyTruthyOpt q'.end_date)
    (h7 : q.sort = q'.sort) :
    listSqlText q fts = listSqlText q' fts ∧ countSqlText q fts = countSqlText q' fts := by
  constructor
  · simp only [listSqlText, listJoinTexts, listClauseTexts, orderText, startsWithAttr,
      h1, h2, h3, h4, h5, h6, h7]
  · simp only [countSqlText, countJoinTexts, countClauseTexts, startsWithAttr,
      h1, h2, h3, h4, h5, h6]

/-- A first sample query for the C9 witness: different values, same shape. -/
def qShapeA : EventQuery :=
  { q := some "alpha", location := some "Lagos", limit := 5, offset := 0 }

/-- A second sample query for the C9 witness: different values, same shape. -/
def qShapeB : EventQuery :=
  { q := some "BETA zz", location := some "x", limit := 99, offset := 7 }

/-- Witness for C9 at concrete inputs. -/
theorem sql_text_fixed_by_shape_witness :
    (pyTruthyStr qShapeA.q = pyTruthyStr qShapeB.q ∧
      pyTruthyStr qShapeA.location = pyTruthyStr qShapeB.location ∧
      pyTruthyOpt qShapeA.category = pyTruthyOpt qShapeB.category ∧
      qShapeA.sort = qShapeB.sort) ∧
    (listSqlText qShapeA true = listSqlText qShapeB true ∧
      countSqlText qShapeA true = countSqlText qShapeB true) :=
  ⟨⟨by decide, by decide, by decide, by decide⟩,
    sql_text_fixed_by_shape qShapeA qShapeB true (by decide) (by decide) (by decide)
      (by decide) (by decide) (by decide) (by decide)⟩

/-! ## FTS query construction and engine semantics (C4) -/

theorem wordRunsAux_sound : ∀ (l acc : List Char),
    (∀ c ∈ acc, isWordChar c = true) →
    ∀ t ∈ wordRunsAux l acc, t ≠ [] ∧ ∀ c ∈ t, isWordChar c = true := by
  intro l
  induction l with
  | nil =>
      intro acc hacc t ht
      by_cases hae : acc.isEmpty
      · simp [wordRunsAux, hae] at ht
      · simp only [wordRunsAux, hae, if_false, Bool.false_eq_true, List.mem_singleton] at ht
        subst ht
        constructor
        · simpa [List.isEmpty_iff] using hae
        · intro c hc
          exact hacc c (List.mem_reverse.mp hc)
  | cons c l ih =>
      intro acc hacc t ht
      by_cases hw : isWordChar c
      · rw [show wordRunsAux (c :: l) acc = wordRunsAux l (c :: acc) from by
          simp [wordRunsAux, hw]] at ht
        refine ih (c :: acc) ?_ t ht
        intro x hx
        rcases List.mem_cons.mp hx with h | h
        · exact h ▸ hw
        · exact hacc x h
      · by_cases hae : acc.isEmpty
        · rw [show wordRunsAux (c :: l) acc = wordRunsAux l [] from by
            simp [wordRunsAux, hw, hae]] at ht
          exact ih [] (by simp) t ht
        · rw [show wordRunsAux (c :: l) acc = acc.reverse :: wordRunsAux l [] from by
            simp [wordRunsAux, hw, hae]] at ht
          rcases List.mem_cons.mp ht with h | h
          · subst h
            constructor
            · simpa [List.isEmpty_iff] using hae
            · intro x hx
              exact hacc x (List.mem_reverse.mp hx)
          · exact ih [] (by simp) t h

theorem isWordChar_ne_space {c : Char} (h : isWordChar c = true) : c ≠ ' ' := by
  intro hc
  subst hc
  simp [isWordChar] at h

theorem splitAnd_no_space : ∀ (t : List Char), (∀ c ∈ t, c ≠ ' ') →
    ∀ (l acc : List Char), splitAnd (t ++ l) acc = splitAnd l (t.reverse ++ acc) := by
  intro t
  induction t with
  | nil => intro _ l acc; simp
  | cons c t ih =>
      intro hns l acc
      have hc : c ≠ ' ' := hns c (List.mem_cons_self _ _)
      show splitAnd (c :: (t ++ l)) acc = _
      rw [splitAnd.eq_def]
      split
      · next heq =>
          exfalso
          injection heq with h1 _
          exact hc h1
      · next c₁ rest heq =>
          injection heq with h1 h2
          subst h1
          rw [← h2]
          rw [ih (fun x hx => hns x (List.mem_cons_of_mem _ hx)) l (c :: acc)]
          simp [List.reverse_cons, List.append_assoc]
      · next heq => exact absurd heq (by simp)

theorem splitAnd_sep (l acc : List Char) :
    splitAnd (sepAND ++ l) acc = acc.reverse :: splitAnd l [] := rfl

theorem splitAnd_single (u acc : List Char) (hu : ∀ c ∈ u, c ≠ ' ') :
    splitAnd u acc = [acc.reverse ++ u] := by
  have h := splitAnd_no_space u hu [] acc
  rw [List.append_nil] at h
  rw [h]
  show [(u.reverse ++ acc).reverse] = _
  simp

theorem splitAnd_join : ∀ (ts : List (List Char)) (t : List Char),
    (∀ u ∈ t :: ts, ∀ c ∈ u, c ≠ ' ') →
    splitAnd (joinAndStar (t :: ts)) [] = (t :: ts).map (fun u => u ++ ['*'])
  | [], t, h => by
      show splitAnd (t ++ ['*']) [] = [t ++ ['*']]
      rw [splitAnd_single (t ++ ['*']) []]
      · simp
      · intro c hc
        rcases List.mem_append.mp hc with h1 | h1
        · exact h t (List.mem_cons_self _ _) c h1
        · rw [List.mem_singleton.mp h1]; decide
  | t' :: ts, t, h => by
      show splitAnd (t ++ ['*'] ++ sepAND ++ joinAndStar (t' :: ts)) [] = _
      have hre : t ++ ['*'] ++ sepAND ++ joinAndStar (t' :: ts) =
          (t ++ ['*']) ++ (sepAND ++ joinAndStar (t' :: ts)) := by
        simp [List.append_assoc]
      rw [hre]
      rw [splitAnd_no_space (t ++ ['*']) ?hns (sepAND ++ joinAndStar (t' :: ts)) []]
      case hns =>
        intro c hc
        rcases List.mem_append.mp hc with h1 | h1
        · exact h t (List.mem_cons_self _ _) c h1
        · rw [List.mem_singleton.mp h1]; decide
      rw [List.append_nil, splitAnd_sep]
      rw [splitAnd_join ts t' (fun u hu => h u (List.mem_cons_of_mem _ hu))]
      simp

theorem parse_toFtsQuery (l : List Char) (h : wordTokensC l ≠ []) :
    parseFtsTokens (toFtsQueryChars l) = wordTokensC l := by
  have hsound := wordRunsAux_sound (l.map lowerChar) [] (by simp)
  cases hts : wordTokensC l with
  | nil => exact absurd hts h
  | cons t ts =>
      have hmem : ∀ u ∈ t :: ts, ∀ c ∈ u, c ≠ ' ' := by
        intro u hu c hc
        have := (hsound u (by rw [← show wordTokensC l = t :: ts from hts] at hu; exact hu)).2 c hc
        exact isWordChar_ne_space this
      rw [parseFtsTokens, toFtsQueryChars, hts]
      rw [splitAnd_join ts t hmem]
      rw [List.map_map]
      rw [List.map_congr_left (fun u _ => by
        show (u ++ ['*']).dropLast = u
        exact List.dropLast_concat ..)]
      exact List.map_id _

/-- C4: with a non-empty token list, the query `_to_fts_query` builds
(lower-cased maximal word-character runs, each a `*` prefix term, joined by
`AND`) matches an indexed document exactly when every token is a prefix of
some word of that document's title or description. -/
theorem fts_prefix_and_semantics (qs : String) (r : Row) (en : FtsEntry)
    (h : wordTokensC qs.toList ≠ []) :
    (evalCond (Cond.ftsMatch (toFtsQueryChars qs.toList)) r (some en) = true ↔
      ∀ t ∈ wordTokensC qs.toList, ∃ w ∈ docTokens en.title en.description, t <+: w) := by
  show ftsEvalChars (toFtsQueryChars qs.toList) en.title en.description = true ↔ _
  rw [ftsEvalChars, parse_toFtsQuery _ h]
  simp [List.all_eq_true, List.any_eq_true, List.isPrefixOf_iff_prefix]

/-- Witness for C4 at a concrete input: the query "lagos tech" against the
"Lagos Tech Meetup" document. -/
theorem fts_prefix_and_semantics_witness :
    wordTokensC "lagos tech".toList ≠ [] ∧
      (evalCond (Cond.ftsMatch (toFtsQueryChars "lagos tech".toList)) rowBeta
          (some ⟨1, "Lagos Tech Meetup", some "AI talks"⟩) = true ↔
        ∀ t ∈ wordTokensC "lagos tech".toList,
          ∃ w ∈ docTokens "Lagos Tech Meetup" (some "AI talks"), t <+: w) :=
  ⟨by decide, fts_prefix_and_semantics "lagos tech" rowBeta ⟨1, "Lagos Tech Meetup", some "AI talks"⟩ (by decide)⟩

/-! ## Count/list consistency (C1) -/

/-- Function `count_events` duplicates the clause construction of `list_events`
verbatim, so both queries carry the same filter set. -/
theorem listConds_eq_countConds (q : EventQuery) (fts : Bool) :
    listConds q fts = countConds q fts := rfl

/-- The count query counts exactly the filtered row set of the fetch
query. -/
theorem countEvents_eq_matchedPairs (db : DbState) (q : EventQuery) :
    countEvents db q = (matchedPairs db q).length := rfl

theorem flatten_pages (l : List Row) (L N : Nat) :
    (((List.range N).map (fun i => (l.drop (i * L)).take L)).flatten) = l.take (N * L) := by
  induction N with
  | zero => simp
  | succ n ih =>
      rw [List.range_succ, List.map_append, List.flatten_append, ih, Nat.succ_mul,
        List.take_add]
      simp

/-- C1: for a fixed database state and filter set, iterating `list_events`
page by page (page size `L`, enough pages to cover the count) yields
exactly `count_events` many records, and that record sequence is a
permutation of the common filtered row set of the two queries. -/
theorem count_equals_page_iteration (db : DbState) (q : EventQuery) (L N : Nat)
    (hN : countEvents db q ≤ N * L) :
    ((((List.range N).map fun i => listEvents db { q with offset := i * L, limit := L }).flatten).length
        = countEvents db q) ∧
      (((List.range N).map fun i => listEvents db { q with offset := i * L, limit := L }).flatten).Perm
        ((matchedPairs db q).map Prod.fst) := by
  have key : ∀ i : Nat, listEvents db { q with offset := i * L, limit := L } =
      ((List.insertionSort (rowLe q.sort) ((matchedPairs db q).map Prod.fst)).drop (i * L)).take L :=
    fun i => rfl
  simp only [key]
  rw [flatten_pages]
  have hlen : (List.insertionSort (rowLe q.sort) ((matchedPairs db q).map Prod.fst)).length
      = countEvents db q := by
    rw [countEvents_eq_matchedPairs]
    calc (List.insertionSort (rowLe q.sort) ((matchedPairs db q).map Prod.fst)).length
        = ((matchedPairs db q).map Prod.fst).length :=
          (List.perm_insertionSort _ _).length_eq
      _ = (matchedPairs db q).length := List.length_map _ _
  rw [List.take_of_length_le (le_of_le_of_eq (le_of_eq hlen) rfl |>.trans hN)]
  exact ⟨hlen, List.perm_insertionSort _ _⟩

/-- A three-event database used by the C1 and C6 witnesses. -/
def dbThree : DbState :=
  ⟨[⟨1, "A", none, "L", "tech", "2025-01-02", "t1"⟩,
    ⟨2, "B", none, "L", "tech", "2025-01-01", "t2"⟩,
    ⟨3, "C", none, "L", "tech", "2025-01-03", "t3"⟩], none, 4⟩

/-- Witness for C1 at a concrete input: 3 matching records, page size 2,
2 pages. -/
theorem count_equals_page_iteration_witness :
    countEvents dbThree {} ≤ 2 * 2 ∧
      (((((List.range 2).map fun i => listEvents dbThree { offset := i * 2, limit := 2 }).flatten).length
          = countEvents dbThree {}) ∧
        ((((List.range 2).map fun i => listEvents dbThree { offset := i * 2, limit := 2 }).flatten).Perm
          ((matchedPairs dbThree {}).map Prod.fst))) :=
  ⟨by decide, count_equals_page_iteration dbThree {} 2 2 (by decide)⟩

/-! ## Deterministic ordering (C6) -/

theorem keyLe_total (x y : List Char) (i j : Nat) : keyLe x y i j ∨ keyLe y x j i := by
  rcases lexLtC_trichotomy x y with ⟨h1, _, _⟩ | ⟨_, h2, _⟩ | ⟨_, _, h3⟩
  · rcases Nat.le_total i j with h | h
    · exact Or.inl (Or.inr ⟨h1, h⟩)
    · exact Or.inr (Or.inr ⟨h1.symm, h⟩)
  · exact Or.inl (Or.inl h2)
  · exact Or.inr (Or.inl h3)

theorem keyLe_trans {x y z : List Char} {i j k : Nat}
    (h1 : keyLe x y i j) (h2 : keyLe y z j k) : keyLe x z i k := by
  rcases h1 with h1 | ⟨hxy, hij⟩
  · rcases h2 with h2 | ⟨hyz, _⟩
    · exact Or.inl (lexLtC_trans x y z h1 h2)
    · exact Or.inl (hyz ▸ h1)
  · rcases h2 with h2 | ⟨hyz, hjk⟩
    · exact Or.inl (hxy ▸ h2)
    · exact Or.inr ⟨hxy.trans hyz, hij.trans hjk⟩

theorem keyLe_antisym {x y : List Char} {i j : Nat}
    (h1 : keyLe x y i j) (h2 : keyLe y x j i) : i = j := by
  rcases h1 with h1 | ⟨hxy, hij⟩
  · rcases h2 with h2 | ⟨hyx, _⟩
    · exact absurd h2 (by simp [lexLtC_asymm h1])
    · subst hyx
      exact absurd h1 (by simp [lexLtC_irrefl])
  · rcases h2 with h2 | ⟨_, hji⟩
    · subst hxy
      exact absurd h2 (by simp [lexLtC_irrefl])
    · exact Nat.le_antisymm hij hji

theorem rowLe_total (s : SortEnum) (a b : Row) : rowLe s a b ∨ rowLe s b a := by
  cases s
  · exact keyLe_total a.date.toList b.date.toList a.id b.id
  · exact (keyLe_total b.date.toList a.date.toList b.id a.id)
  · exact (keyLe_total b.created_at.toList a.created_at.toList b.id a.id)

theorem rowLe_trans (s : SortEnum) {a b c : Row}
    (h1 : rowLe s a b) (h2 : rowLe s b c) : rowLe s a c := by
  cases s
  · exact keyLe_trans h1 h2
  · exact keyLe_trans h2 h1
  · exact keyLe_trans h2 h1

theorem rowLe_antisym_ids (s : SortEnum) {a b : Row}
    (h1 : rowLe s a b) (h2 : rowLe s b a) : a.id = b.id := by
  cases s
  · exact keyLe_antisym h1 h2
  · exact (keyLe_antisym h2 h1)
  · exact (keyLe_antisym h2 h1)

theorem eq_of_perm_of_sorted_of_antisymm {α : Type} {r : α → α → Prop} :
    ∀ {l₁ l₂ : List α}, l₁.Perm l₂ → l₁.Pairwise r → l₂.Pairwise r →
      (∀ a ∈ l₁, ∀ b ∈ l₁, r a b → r b a → a = b) → l₁ = l₂ := by
  intro l₁
  induction l₁ with
  | nil =>
      intro l₂ hp _ _ _
      exact hp.nil_eq
  | cons a t ih =>
      intro l₂ hp hs₁ hs₂ hanti
      cases l₂ with
      | nil => exact absurd hp.symm.nil_eq (by simp)
      | cons b t₂ =>
          have hab : a = b := by
            by_cases h : a = b
            · exact h
            · have hbt : b ∈ t := by
                rcases List.mem_cons.mp (hp.symm.subset (List.mem_cons_self b t₂)) with h' | h'
                · exact absurd h'.symm h
                · exact h'
              have hat : a ∈ t₂ := by
                rcases List.mem_cons.mp (hp.subset (List.mem_cons_self a t)) with h' | h'
                · exact absurd h' h
                · exact h'
              have hrab : r a b := (List.pairwise_cons.mp hs₁).1 b hbt
              have hrba : r b a := (List.pairwise_cons.mp hs₂).1 a hat
              exact hanti a (List.mem_cons_self a t) b (List.mem_cons_of_mem a hbt) hrab hrba
          subst hab
          have ht : t = t₂ :=
            ih hp.cons_inv (List.pairwise_cons.mp hs₁).2 (List.pairwise_cons.mp hs₂).2
              (fun x hx y hy hxy hyx =>
                hanti x (List.mem_cons_of_mem a hx) y (List.mem_cons_of_mem a hy) hxy hyx)
          rw [ht]

/-- A result an engine may return for the fetch query: any ordering of the
filtered row set consistent with the `ORDER BY` relation, cut by
offset/limit. -/
def ValidOrderedResult (db : DbState) (q : EventQuery) (res : List Row) : Prop :=
  ∃ l : List Row, l.Perm ((matchedPairs db q).map Prod.fst) ∧ l.Pairwise (rowLe q.sort) ∧
    res = (l.drop q.offset).take q.limit

/-- C6: under each sort mode the `ORDER BY` uses `id` as tie-break in the
same direction, so when the filtered rows have distinct ids any ordering
consistent with the `ORDER BY` relation is unique: every valid result
equals the canonical `listEvents` page, making repeated identical calls
deterministic. -/
theorem deterministic_ordering (db : DbState) (q : EventQuery) (res : List Row)
    (hids : (((matchedPairs db q).map Prod.fst).map Row.id).Nodup)
    (h : ValidOrderedResult db q res) :
    res = listEvents db q := by
  obtain ⟨l, hperm, hsort, hres⟩ := h
  haveI : IsTotal Row (rowLe q.sort) := ⟨rowLe_total q.sort⟩
  haveI : IsTrans Row (rowLe q.sort) := ⟨fun _ _ _ => rowLe_trans q.sort⟩
  have hs2 : (List.insertionSort (rowLe q.sort) ((matchedPairs db q).map Prod.fst)).Pairwise
      (rowLe q.sort) := List.sorted_insertionSort _ _
  have hl : l = List.insertionSort (rowLe q.sort) ((matchedPairs db q).map Prod.fst) := by
    refine eq_of_perm_of_sorted_of_antisymm
      (hperm.trans (List.perm_insertionSort _ _).symm) hsort hs2 ?_
    intro a ha b hb hab hba
    exact List.inj_on_of_nodup_map hids (hperm.subset ha) (hperm.subset hb)
      (rowLe_antisym_ids q.sort hab hba)
  rw [hres, hl]
  rfl

/-- The date-ascending arrangement of `dbThree` used by the C6 witness. -/
def dbThreeSorted : List Row :=
  [⟨2, "B", none, "L", "tech", "2025-01-01", "t2"⟩,
   ⟨1, "A", none, "L", "tech", "2025-01-02", "t1"⟩,
   ⟨3, "C", none, "L", "tech", "2025-01-03", "t3"⟩]

/-- Witness for C6 at a concrete input. -/
theorem deterministic_ordering_witness :
    ((((matchedPairs dbThree {}).map Prod.fst).map Row.id).Nodup ∧
        ValidOrderedResult dbThree {} dbThreeSorted) ∧
      dbThreeSorted = listEvents dbThree {} :=
  ⟨⟨by decide, ⟨dbThreeSorted, by decide, by decide, by decide⟩⟩,
    deterministic_ordering dbThree {} dbThreeSorted (by decide)
      ⟨dbThreeSorted, by decide, by decide, by decide⟩⟩

/-! ## Stored-field invariants (C7) -/

/-- Property "carries no leading or trailing whitespace". -/
def noEdgeWs (s : String) : Prop :=
  (∀ c, s.toList.head? = some c → pyWs c = false) ∧
  (∀ c, s.toList.getLast? = some c → pyWs c = false)

/-- ISO 8601 calendar-date text: `DDDD-DD-DD` with `D` a decimal digit. -/
def isIsoDateB (s : String) : Bool :=
  match s.toList with
  | [y1, y2, y3, y4, s1, m1, m2, s2, d1, d2] =>
      y1.isDigit && y2.isDigit && y3.isDigit && y4.isDigit && s1 = '-' &&
        m1.isDigit && m2.isDigit && s2 = '-' && d1.isDigit && d2.isDigit
  | _ => false

theorem head_not_of_dropWhile {p : Char → Bool} {l : List Char} {c : Char}
    (h : (l.dropWhile p).head? = some c) : p c = false := by
  have h2 := List.head?_dropWhile_not p l
  rw [h] at h2
  exact h2

theorem getLast_of_suffix {m w : List Char} {c : Char} (hs : m <:+ w)
    (h : m.getLast? = some c) : w.getLast? = some c := by
  obtain ⟨pre, hpre⟩ := hs
  have hne : m ≠ [] := by
    intro he
    rw [he] at h
    simp at h
  rw [← hpre, List.getLast?_append_of_ne_nil pre hne]
  exact h

theorem noEdgeWs_pyStrip (s : String) : noEdgeWs (pyStrip s) := by
  constructor
  · intro c hc
    have hc' : (((s.toList.dropWhile pyWs).reverse.dropWhile pyWs).reverse).head? = some c := hc
    rw [List.head?_reverse] at hc'
    have hsuf : (s.toList.dropWhile pyWs).reverse.dropWhile pyWs <:+
        (s.toList.dropWhile pyWs).reverse := List.dropWhile_suffix pyWs
    have hlast := getLast_of_suffix hsuf hc'
    rw [List.getLast?_reverse] at hlast
    exact head_not_of_dropWhile hlast
  · intro c hc
    have hc' : (((s.toList.dropWhile pyWs).reverse.dropWhile pyWs).reverse).getLast? = some c := hc
    rw [List.getLast?_reverse] at hc'
    exact head_not_of_dropWhile hc'

theorem digitChar_isDigit (n : Nat) : (digitChar n).isDigit = true := by
  have hk : n % 10 < 10 := Nat.mod_lt _ (by norm_num)
  unfold digitChar
  generalize hgen : n % 10 = k at hk
  interval_cases k <;> decide

theorem isoformat_isIsoDate (d : PyDate) : isIsoDateB (isoformat d) = true := by
  show isIsoDateB ⟨[digitChar (d.year / 1000), digitChar (d.year / 100),
    digitChar (d.year / 10), digitChar d.year, '-',
    digitChar (d.month / 10), digitChar d.month, '-',
    digitChar (d.day / 10), digitChar d.day]⟩ = true
  simp [isIsoDateB, digitChar_isDigit, String.toList]

theorem categoryValue_mem (k : CategoryEnum) : k.value ∈ categoryValues := by
  cases k <;> simp [CategoryEnum.value, categoryValues]

/-- Every field of a stored row the (amended) data-model invariant
requires: category in the closed lowercase set, no edge whitespace on the
texts, ISO 8601 calendar-date text in `date`. -/
def rowWellFormed (e : Row) : Prop :=
  e.category ∈ categoryValues ∧ noEdgeWs e.title ∧ noEdgeWs e.location ∧
    (∀ d, e.description = some d → noEdgeWs d) ∧ isIsoDateB e.date = true

theorem vStr_shape {n : Nat} {o : Option String} {t : String}
    (h : vStr n o = some t) : ∃ s, t = pyStrip s := by
  cases o with
  | none => simp [vStr] at h
  | some s =>
      by_cases hc : (pyStrip s).length ≤ n
      · rw [vStr, if_pos hc] at h
        exact ⟨s, (Option.some.inj h).symm⟩
      · rw [vStr, if_neg hc] at h
        exact absurd h (by simp)

theorem vStrOpt_shape {n : Nat} {o : Option String} {t : Option String}
    (h : vStrOpt n o = some t) : t = none ∨ ∃ s, t = some (pyStrip s) := by
  cases o with
  | none => exact Or.inl (Option.some.inj h).symm
  | some s =>
      by_cases hc : (pyStrip s).length ≤ n
      · rw [vStrOpt, if_pos hc] at h
        exact Or.inr ⟨s, (Option.some.inj h).symm⟩
      · rw [vStrOpt, if_neg hc] at h
        exact absurd h (by simp)

theorem vOptStrU_shape {n : Nat} {o : Option (Option String)} {t : Option (Option String)}
    (h : vOptStrU n o = some t) :
    t = none ∨ t = some none ∨ ∃ s, t = some (some (pyStrip s)) := by
  match o with
  | none => exact Or.inl (Option.some.inj h).symm
  | some none => exact Or.inr (Or.inl (Option.some.inj h).symm)
  | some (some d) =>
      by_cases hc : (pyStrip d).length ≤ n
      · rw [vOptStrU, if_pos hc] at h
        exact Or.inr (Or.inr ⟨d, (Option.some.inj h).symm⟩)
      · rw [vOptStrU, if_neg hc] at h
        exact absurd h (by simp)

theorem validateCreate_shape {r : RawCreate} {c : EventCreate}
    (h : validateCreate r = some c) :
    (∃ t, c.title = pyStrip t) ∧ (∃ l, c.location = pyStrip l) ∧
      (c.description = none ∨ ∃ d, c.description = some (pyStrip d)) := by
  unfold validateCreate at h
  cases hv1 : vStr 200 r.title with
  | none => rw [hv1] at h; simp at h
  | some t =>
  rw [hv1] at h
  cases hv2 : vStrOpt 2000 r.description with
  | none => rw [hv2] at h; simp at h
  | some de =>
  rw [hv2] at h
  cases hv3 : vStr 200 r.location with
  | none => rw [hv3] at h; simp at h
  | some lo =>
  rw [hv3] at h
  cases hv4 : r.category.bind normalizeCategory with
  | none => rw [hv4] at h; simp at h
  | some ca =>
  rw [hv4] at h
  cases hv5 : vDate r.date with
  | none => rw [hv5] at h; simp at h
  | some da =>
  rw [hv5] at h
  have hc : c = ⟨t, de, lo, ca, da⟩ := (Option.some.inj h).symm
  subst hc
  exact ⟨vStr_shape hv1, vStr_shape hv3, vStrOpt_shape hv2⟩

theorem validateUpdate_shape {r : RawUpdate} {u : EventUpdate}
    (h : validateUpdate r = some u) :
    (u.title = none ∨ u.title = some none ∨ ∃ t, u.title = some (some (pyStrip t))) ∧
      (u.location = none ∨ u.location = some none ∨
        ∃ l, u.location = some (some (pyStrip l))) ∧
      (u.description = none ∨ u.description = some none ∨
        ∃ d, u.description = some (some (pyStrip d))) := by
  unfold validateUpdate at h
  cases hv1 : vOptStrU 200 r.title with
  | none => rw [hv1] at h; simp at h
  | some t =>
  rw [hv1] at h
  cases hv2 : vOptStrU 2000 r.description with
  | none => rw [hv2] at h; simp at h
  | some de =>
  rw [hv2] at h
  cases hv3 : vOptStrU 200 r.location with
  | none => rw [hv3] at h; simp at h
  | some lo =>
  rw [hv3] at h
  cases hv4 : vCatU r.category with
  | none => rw [hv4] at h; simp at h
  | some ca =>
  rw [hv4] at h
  cases hv5 : vDateU r.date with
  | none => rw [hv5] at h; simp at h
  | some da =>
  rw [hv5] at h
  have hu : u = ⟨t, de, lo, ca, da⟩ := (Option.some.inj h).symm
  subst hu
  exact ⟨vOptStrU_shape hv1, vOptStrU_shape hv3, vOptStrU_shape hv2⟩

/-- C7 (amended): every reachable store satisfies, and hence every
operation preserves: categories are members of the closed lowercase set,
title/location/description carry no leading or trailing whitespace, and
dates are ISO 8601 calendar-date text.  (The non-emptiness the original
claim also asserts is refuted by `empty_title_reachable`.) -/
theorem stored_invariants (db : DbState) (h : Reachable db) :
    ∀ e ∈ db.events, rowWellFormed e := by
  induction h with
  | init fts => intro e he; simp [initState] at he
  | @insert db raw c createdAt _ hv ih =>
      intro e he
      rcases List.mem_append.mp he with he | he
      · exact ih e he
      · obtain ⟨⟨t, hti⟩, ⟨l0, hlo⟩, hde⟩ := validateCreate_shape hv
        have he' : e = mkRow c db.nextId createdAt := List.mem_singleton.mp he
        subst he'
        refine ⟨categoryValue_mem c.category, ?_, ?_, ?_, isoformat_isIsoDate c.date⟩
        · show noEdgeWs c.title
          rw [hti]
          exact noEdgeWs_pyStrip t
        · show noEdgeWs c.location
          rw [hlo]
          exact noEdgeWs_pyStrip l0
        · intro d hd
          have hd' : c.description = some d := hd
          rcases hde with hnone | ⟨d0, hsome⟩
          · rw [hnone] at hd'; exact absurd hd' (by simp)
          · rw [hsome] at hd'
            have : pyStrip d0 = d := Option.some.inj hd'
            rw [← this]
            exact noEdgeWs_pyStrip d0
  | @update db raw u id _ hv ih =>
      intro e he
      rcases applyUpdate_cases db id u with heq | ⟨hex, heq⟩
      · rw [heq] at he
        exact ih e he
      · have hev : (applyUpdate db id u).events =
            db.events.map (fun x => if x.id == id then applyUpd x u else x) := by
          rw [heq]
        rw [hev] at he
        obtain ⟨e0, he0, hupd⟩ := List.mem_map.mp he
        obtain ⟨hut, hul, hud⟩ := validateUpdate_shape hv
        by_cases hid : (e0.id == id) = true
        · rw [if_pos hid] at hupd
          subst hupd
          obtain ⟨hc0, ht0, hl0, hd0, hdate0⟩ := ih e0 he0
          refine ⟨?_, ?_, ?_, ?_, ?_⟩
          · cases hcat : u.category with
            | none =>
                have hEq : (applyUpd e0 u).category = e0.category := by
                  simp [applyUpd, hcat]
                rw [hEq]; exact hc0
            | some oc =>
                cases oc with
                | none =>
                    have hEq : (applyUpd e0 u).category = e0.category := by
                      simp [applyUpd, hcat]
                    rw [hEq]; exact hc0
                | some k =>
                    have hEq : (applyUpd e0 u).category = k.value := by
                      simp [applyUpd, hcat]
                    rw [hEq]; exact categoryValue_mem k
          · rcases hut with h1 | h1 | ⟨t, h1⟩
            · have hEq : (applyUpd e0 u).title = e0.title := by simp [applyUpd, h1]
              rw [hEq]; exact ht0
            · have hEq : (applyUpd e0 u).title = e0.title := by simp [applyUpd, h1]
              rw [hEq]; exact ht0
            · have hEq : (applyUpd e0 u).title = pyStrip t := by simp [applyUpd, h1]
              rw [hEq]; exact noEdgeWs_pyStrip t
          · rcases hul with h1 | h1 | ⟨l0, h1⟩
            · have hEq : (applyUpd e0 u).location = e0.location := by simp [applyUpd, h1]
              rw [hEq]; exact hl0
            · have hEq : (applyUpd e0 u).location = e0.location := by simp [applyUpd, h1]
              rw [hEq]; exact hl0
            · have hEq : (applyUpd e0 u).location = pyStrip l0 := by simp [applyUpd, h1]
              rw [hEq]; exact noEdgeWs_pyStrip l0
          · intro d hd
            rcases hud with h1 | h1 | ⟨d0, h1⟩
            · have hEq : (applyUpd e0 u).description = e0.description := by
                simp [applyUpd, h1]
              rw [hEq] at hd
              exact hd0 d hd
            · have hEq : (applyUpd e0 u).description = none := by simp [applyUpd, h1]
              rw [hEq] at hd
              exact Option.noConfusion hd
            · have hEq : (applyUpd e0 u).description = some (pyStrip d0) := by
                simp [applyUpd, h1]
              rw [hEq] at hd
              have h2 : pyStrip d0 = d := Option.some.inj hd
              rw [← h2]
              exact noEdgeWs_pyStrip d0
          · cases hdt : u.date with
            | none =>
                have hEq : (applyUpd e0 u).date = e0.date := by simp [applyUpd, hdt]
                rw [hEq]; exact hdate0
            | some od =>
                cases od with
                | none =>
                    have hEq : (applyUpd e0 u).date = e0.date := by simp [applyUpd, hdt]
                    rw [hEq]; exact hdate0
                | some d =>
                    have hEq : (applyUpd e0 u).date = isoformat d := by
                      simp [applyUpd, hdt]
                    rw [hEq]; exact isoformat_isIsoDate d
        · rw [if_neg hid] at hupd
          subst hupd
          exact ih e0 he0
  | @delete db id _ ih =>
      intro e he
      exact ih e (List.mem_filter.mp he).1

/-- Raw create input whose title strips to the empty string. -/
def rawEmptyTitle : RawCreate := ⟨some "   ", none, some "Lagos", some "tech", some ⟨2025, 6, 1⟩⟩

/-- The `EventCreate` pydantic accepts for `rawEmptyTitle`. -/
def cEmptyTitle : EventCreate := ⟨"", none, "Lagos", .tech, ⟨2025, 6, 1⟩⟩

/-- The reachable store after inserting the empty-titled event. -/
def dbEmptyTitle : DbState := applyInsert (initState true) cEmptyTitle "t0"

/-- C7 counterexample: validation accepts a title of pure whitespace
(stripping it to `""` — no minimum length is enforced anywhere), and the
insert stores an event whose title is the empty string, refuting the
claimed non-emptiness of stored titles. -/
theorem empty_title_reachable :
    validateCreate rawEmptyTitle = some cEmptyTitle ∧
      Reachable dbEmptyTitle ∧
      mkRow cEmptyTitle 1 "t0" ∈ dbEmptyTitle.events ∧
      (mkRow cEmptyTitle 1 "t0").title = "" :=
  ⟨by decide,
    Reachable.insert rawEmptyTitle cEmptyTitle "t0" (Reachable.init true) (by decide),
    by decide, by decide⟩

/-- Witness for the amended C7 theorem at a concrete reachable store. -/
theorem stored_invariants_witness :
    Reachable dbBeta ∧ ∀ e ∈ dbBeta.events, rowWellFormed e :=
  ⟨Reachable.insert ⟨some "Beta", none, some "Lagos", some "tech", some ⟨2025, 6, 1⟩⟩
      ⟨"Beta", none, "Lagos", .tech, ⟨2025, 6, 1⟩⟩ "t1" (Reachable.init false) (by decide),
    stored_invariants dbBeta
      (Reachable.insert ⟨some "Beta", none, some "Lagos", some "tech", some ⟨2025, 6, 1⟩⟩
        ⟨"Beta", none, "Lagos", .tech, ⟨2025, 6, 1⟩⟩ "t1" (Reachable.init false) (by decide))⟩

/-! ## Full-text index consistency (C2) -/

/-- The FTS document an event row should be indexed by. -/
def entryOf (e : Row) : FtsEntry := ⟨e.id, e.title, e.description⟩

/-- Primary table and FTS index agree: each event has exactly the one
document carrying its current title and description, and no document is
orphaned. -/
def syncProp (events : List Row) (entries : List FtsEntry) : Prop :=
  (∀ e ∈ events, entries.filter (fun en => en.rowid == e.id) = [entryOf e]) ∧
  (∀ en ∈ entries, ∃ e ∈ events, en.rowid = e.id)

/-- The inductive invariant: ids below the autoincrement counter, distinct
ids, and the index in sync whenever it exists. -/
def dbInv (db : DbState) : Prop :=
  (∀ e ∈ db.events, e.id < db.nextId) ∧ (db.events.map Row.id).Nodup ∧
    (∀ entries, db.fts = some entries → syncProp db.events entries)

theorem filter_singleton_of_nodup {l : List Row} (hn : (l.map Row.id).Nodup) {e : Row}
    (he : e ∈ l) : l.filter (fun x => x.id == e.id) = [e] := by
  induction l with
  | nil => cases he
  | cons a t ih =>
      have hn' : a.id ∉ t.map Row.id ∧ (t.map Row.id).Nodup := by
        simpa [List.nodup_cons] using hn
      rcases List.mem_cons.mp he with he | he
      · subst he
        have hfe : t.filter (fun x => x.id == e.id) = [] := by
          rw [List.filter_eq_nil_iff]
          intro x hx
          simp only [beq_iff_eq]
          intro hxe
          exact hn'.1 (hxe ▸ List.mem_map_of_mem Row.id hx)
        simp [List.filter_cons, hfe]
      · have hne : (a.id == e.id) = false := by
          simp only [beq_eq_false_iff_ne, ne_eq]
          intro hEq
          exact hn'.1 (hEq ▸ List.mem_map_of_mem Row.id he)
        simp [List.filter_cons, hne, ih hn'.2 he]

theorem filter_rowid_commute {entries : List FtsEntry} {eid idv : Nat} (hne : ¬ eid = idv) :
    (entries.filter (fun en => en.rowid != idv)).filter (fun en => en.rowid == eid)
      = entries.filter (fun en => en.rowid == eid) := by
  rw [List.filter_filter]
  refine List.filter_congr ?_
  intro en _
  show ((en.rowid == eid) && (en.rowid != idv)) = (en.rowid == eid)
  cases hb : (en.rowid == eid) with
  | false => simp
  | true =>
      have h3 : en.rowid = eid := by simpa using hb
      simp [h3, hne]

theorem reachable_dbInv {db : DbState} (h : Reachable db) : dbInv db := by
  induction h with
  | init fts =>
      refine ⟨by simp [initState], by simp [initState], ?_⟩
      intro entries he
      cases fts with
      | false => simp [initState] at he
      | true =>
          have : entries = [] := by simpa [initState] using he.symm
          subst this
          exact ⟨by simp [initState], by simp⟩
  | @insert db raw c createdAt hr hv ih =>
      obtain ⟨hbound, hnodup, hsync⟩ := ih
      refine ⟨?_, ?_, ?_⟩
      · intro e he
        rcases List.mem_append.mp he with he | he
        · exact Nat.lt_succ_of_lt (hbound e he)
        · rw [List.mem_singleton.mp he]
          exact Nat.lt_succ_self _
      · show ((db.events ++ [mkRow c db.nextId createdAt]).map Row.id).Nodup
        rw [List.map_append, List.nodup_append]
        refine ⟨hnodup, by simp, ?_⟩
        intro x hx
        simp only [List.map_cons, List.map_nil, List.mem_singleton]
        intro hxn
        obtain ⟨e, he, hxe⟩ := List.mem_map.mp hx
        have h1 := hbound e he
        have h2 : x = db.nextId := hxn
        omega
      · intro entries' he'
        obtain ⟨entries, hdbf, hent⟩ := Option.map_eq_some'.mp he'
        rw [← hent]
        obtain ⟨hs1, hs2⟩ := hsync entries hdbf
        constructor
        · intro e he
          rcases List.mem_append.mp he with he | he
          · rw [List.filter_append, hs1 e he]
            have hfalse : (((mkRow c db.nextId createdAt).id : Nat) == e.id) = false := by
              simp only [beq_eq_false_iff_ne, ne_eq]
              show ¬ db.nextId = e.id
              have := hbound e he
              omega
            simp [List.filter_cons, hfalse]
          · have he'' : e = mkRow c db.nextId createdAt := List.mem_singleton.mp he
            subst he''
            rw [List.filter_append]
            have hnil : entries.filter
                (fun en => en.rowid == (mkRow c db.nextId createdAt).id) = [] := by
              rw [List.filter_eq_nil_iff]
              intro en hen
              obtain ⟨e', he', hEq⟩ := hs2 en hen
              have := hbound e' he'
              simp only [beq_iff_eq]
              show ¬ en.rowid = db.nextId
              omega
            rw [hnil]
            simp [List.filter_cons, entryOf]
        · intro en hen
          rcases List.mem_append.mp hen with hen | hen
          · obtain ⟨e, he, hEq⟩ := hs2 en hen
            exact ⟨e, List.mem_append_left _ he, hEq⟩
          · refine ⟨mkRow c db.nextId createdAt,
              List.mem_append_right _ (List.mem_singleton_self _), ?_⟩
            rw [List.mem_singleton.mp hen]
  | @update db raw u id hr hv ih =>
      obtain ⟨hbound, hnodup, hsync⟩ := ih
      rcases applyUpdate_cases db id u with heq | ⟨hex, heq⟩
      · rw [heq]
        exact ⟨hbound, hnodup, hsync⟩
      · have hev : (applyUpdate db id u).events =
            db.events.map (fun x => if x.id == id then applyUpd x u else x) := by
          rw [heq]
        have hft : (applyUpdate db id u).fts = db.fts.map (fun ds =>
            ds.filter (fun en => en.rowid != id) ++
              ((db.events.filter (fun e => e.id == id)).map
                (fun e => (⟨(applyUpd e u).id, (applyUpd e u).title,
                  (applyUpd e u).description⟩ : FtsEntry)))) := by
          rw [heq]
        have hnx : (applyUpdate db id u).nextId = db.nextId := by
          rw [heq]
        have hid_pres : ∀ x : Row, ((if x.id == id then applyUpd x u else x) : Row).id = x.id := by
          intro x
          by_cases hc : (x.id == id) = true
          · rw [if_pos hc]
            rfl
          · rw [if_neg hc]
        have hmap_ids : ((db.events.map (fun x => if x.id == id then applyUpd x u else x)).map Row.id)
            = db.events.map Row.id := by
          rw [List.map_map]
          exact List.map_congr_left (fun x _ => hid_pres x)
        obtain ⟨e0, he0, he0id⟩ : ∃ e0 ∈ db.events, e0.id = id := by
          obtain ⟨e0, he0, hb⟩ := List.any_eq_true.mp hex
          exact ⟨e0, he0, by simpa using hb⟩
        have hfilter_upd : db.events.filter (fun e => e.id == id) = [e0] := by
          rw [show (fun e : Row => e.id == id) = (fun e : Row => e.id == e0.id) from by
            rw [he0id]]
          exact filter_singleton_of_nodup hnodup he0
        refine ⟨?_, ?_, ?_⟩
        · intro e he
          rw [hev] at he
          obtain ⟨e1, he1, hfe⟩ := List.mem_map.mp he
          rw [hnx, ← hfe, hid_pres e1]
          exact hbound e1 he1
        · rw [hev, hmap_ids]
          exact hnodup
        · intro entries' he'
          rw [hft] at he'
          obtain ⟨entries, hdbf, hent⟩ := Option.map_eq_some'.mp he'
          rw [← hent]
          obtain ⟨hs1, hs2⟩ := hsync entries hdbf
          constructor
          · intro e' he'
            rw [hev] at he'
            obtain ⟨e, he, hfe⟩ := List.mem_map.mp he'
            rw [← hfe]
            by_cases hid : (e.id == id) = true
            · have heq0 : e = e0 := by
                have h1 : e.id = id := by simpa using hid
                exact List.inj_on_of_nodup_map hnodup he he0 (by rw [h1, he0id])
              rw [show ((if e.id == id then applyUpd e u else e) : Row) = applyUpd e u
                from if_pos hid]
              rw [List.filter_append]
              have hp1 : ((entries.filter (fun en => en.rowid != id)).filter
                  (fun en => en.rowid == (applyUpd e u).id)) = [] := by
                rw [List.filter_filter, List.filter_eq_nil_iff]
                intro en _
                have h1 : (applyUpd e u).id = e.id := rfl
                have h2 : e.id = id := by simpa using hid
                rw [h1, h2]
                by_cases hc : en.rowid = id <;> simp [hc]
              rw [hp1, hfilter_upd]
              have heq0' : e0 = e := heq0.symm
              subst heq0'
              simp [List.filter_cons, entryOf]
            · rw [show ((if e.id == id then applyUpd e u else e) : Row) = e from if_neg hid]
              have hne2 : ¬ e.id = id := by simpa using hid
              rw [List.filter_append, filter_rowid_commute hne2, hs1 e he, hfilter_upd]
              have hfalse : (((applyUpd e0 u).id : Nat) == e.id) = false := by
                have h1 : (applyUpd e0 u).id = e0.id := rfl
                have h2 : ¬ e.id = id := by simpa using hid
                rw [h1, he0id]
                simp only [beq_eq_false_iff_ne, ne_eq]
                exact fun hEq => h2 hEq.symm
              simp [List.filter_cons, hfalse]
          · intro en hen
            rcases List.mem_append.mp hen with hen | hen
            · obtain ⟨henE, _⟩ := List.mem_filter.mp hen
              obtain ⟨e, he, hEq⟩ := hs2 en henE
              refine ⟨(if e.id == id then applyUpd e u else e), ?_, ?_⟩
              · rw [hev]
                exact List.mem_map_of_mem _ he
              · rw [hid_pres e]
                exact hEq
            · rw [hfilter_upd] at hen
              have hen' : en = ⟨(applyUpd e0 u).id, (applyUpd e0 u).title,
                  (applyUpd e0 u).description⟩ := by simpa using hen
              refine ⟨(if e0.id == id then applyUpd e0 u else e0), ?_, ?_⟩
              · rw [hev]
                exact List.mem_map_of_mem _ he0
              · rw [hen', if_pos (show (e0.id == id) = true by simpa using he0id)]
  | @delete db id hr ih =>
      obtain ⟨hbound, hnodup, hsync⟩ := ih
      by_cases hex : (db.events.any fun x => x.id == id) = true
      · have hft : (applyDelete db id).fts =
            db.fts.map (fun ds => ds.filter (fun en => en.rowid != id)) := by
          simp [applyDelete, hex]
        refine ⟨?_, ?_, ?_⟩
        · intro e he
          exact hbound e (List.mem_filter.mp he).1
        · show ((db.events.filter (fun e => e.id != id)).map Row.id).Nodup
          exact List.Nodup.sublist ((List.filter_sublist _).map Row.id) hnodup
        · intro entries' he'
          rw [hft] at he'
          obtain ⟨entries, hdbf, hent⟩ := Option.map_eq_some'.mp he'
          rw [← hent]
          obtain ⟨hs1, hs2⟩ := hsync entries hdbf
          constructor
          · intro e he
            obtain ⟨heE, hne⟩ := List.mem_filter.mp he
            have hne' : ¬ e.id = id := by simpa using hne
            rw [filter_rowid_commute hne']
            exact hs1 e heE
          · intro en hen
            obtain ⟨henE, hrow⟩ := List.mem_filter.mp hen
            obtain ⟨e, he, hEq⟩ := hs2 en henE
            have hne : ¬ e.id = id := by
              intro hEq2
              rw [hEq, hEq2] at hrow
              simp at hrow
            exact ⟨e, List.mem_filter.mpr ⟨he, by simpa using hne⟩, hEq⟩
      · have hstep : applyDelete db id = db := by
          have hany : (db.events.any fun x => x.id == id) = false := by
            cases hb : (db.events.any fun x => x.id == id)
            · rfl
            · exact absurd hb hex
          have hall : ∀ e ∈ db.events, ¬ (e.id == id) = true := by
            simpa [List.any_eq_false] using hany
          have hfil : db.events.filter (fun e => e.id != id) = db.events := by
            rw [List.filter_eq_self]
            intro e he
            simpa using hall e he
          simp [applyDelete, hany, hfil]
        rw [hstep]
        exact ⟨hbound, hnodup, hsync⟩

/-- C2: in every reachable state in which the full-text index exists, each
event has exactly one index document and it carries the event's current
title and description, and every index document belongs to an existing
event — the triggers installed by `_ensure_fts5` update the index in the
same unit of work as every insert, delete and update, so no operation
leaves the two out of sync. -/
theorem index_consistency (db : DbState) (h : Reachable db) (entries : List FtsEntry)
    (he : db.fts = some entries) :
    (∀ e ∈ db.events, entries.filter (fun en => en.rowid == e.id) = [entryOf e]) ∧
    (∀ en ∈ entries, ∃ e ∈ db.events, en.rowid = e.id) :=
  (reachable_dbInv h).2.2 entries he

/-- A reachable FTS-enabled store with one event, for the C2 witness. -/
def dbFts : DbState :=
  applyInsert (initState true) ⟨"Lagos Tech Meetup", some "AI talks", "Lagos", .tech, ⟨2025, 6, 1⟩⟩ "t1"

/-- Witness for C2 at a concrete input. -/
theorem index_consistency_witness :
    dbFts.fts = some [⟨1, "Lagos Tech Meetup", some "AI talks"⟩] ∧
      ((∀ e ∈ dbFts.events,
          ([⟨1, "Lagos Tech Meetup", some "AI talks"⟩] : List FtsEntry).filter
            (fun en => en.rowid == e.id) = [entryOf e]) ∧
        (∀ en ∈ ([⟨1, "Lagos Tech Meetup", some "AI talks"⟩] : List FtsEntry),
          ∃ e ∈ dbFts.events, en.rowid = e.id)) :=
  ⟨by decide,
    index_consistency dbFts
      (Reachable.insert
        ⟨some "Lagos Tech Meetup", some "AI talks", some "Lagos", some "tech", some ⟨2025, 6, 1⟩⟩
        ⟨"Lagos Tech Meetup", some "AI talks", "Lagos", .tech, ⟨2025, 6, 1⟩⟩ "t1"
        (Reachable.init true) (by decide))
      [⟨1, "Lagos Tech Meetup", some "AI talks"⟩] (by decide)⟩

end EventFinder
